import Mathlib

/-!
# Verification of the deduplication core of the My-Music library backend

A shallow embedding of `backend/app/services/normalizer.py` and
`backend/app/services/deduplication.py`, together with theorems settling the
frozen claims about the natural-language specification of that code.

Modelling conventions:
* Python strings are modelled as lists of Unicode code points (`List Nat`);
  `codes` converts a Lean string literal to that representation.
* Unicode NFKC normalization is modelled as the identity function: every
  character appearing in this development (ASCII plus the explicit entries of
  the source's `PUNCTUATION_MAP`, save `…`, which NFKC itself rewrites to the
  same `...` the map produces) is NFKC-invariant.
* `str.lower()` is modelled on the ASCII range (the only range exercised by
  the code's fixed tables and by every input appearing in the claims).
* Databases are modelled as explicit record states (`DB`); SQLAlchemy queries
  become list lookups in row order, and fallible service calls return
  `Except String`.
* Python floats are modelled as exact rationals (`ℚ`); `round(x, 2)` is
  modelled as round-half-to-even at two decimals.
-/

/-- Code points of a string literal, the `List Nat` model of a Python `str`. -/
def codes (s : String) : List Nat := s.data.map Char.toNat

/-- Python `\s` / `str.strip` whitespace, restricted to the ASCII range:
space, tab, newline, carriage return, vertical tab, form feed. -/
def isWs (n : Nat) : Bool :=
  n == 32 || n == 9 || n == 10 || n == 13 || n == 11 || n == 12

/-- `str.lower()` on one code point, ASCII range (see module comment). -/
def lowerCode (n : Nat) : Nat := if 65 ≤ n ∧ n ≤ 90 then n + 32 else n

/-- `str.lower()` over a whole string. -/
def lowerStr (l : List Nat) : List Nat := l.map lowerCode

/-- One code point through the source's `PUNCTUATION_MAP` (smart quotes,
single low quote, double quotes, en/em dash, ellipsis, multiplication sign,
bullet).  The sequential `str.replace` calls of the source are equivalent to
this per-character substitution because no replacement output is itself a
key of the map. -/
def punctSub (n : Nat) : List Nat :=
  if n = 0x2018 ∨ n = 0x2019 ∨ n = 0x201A then [39]
  else if n = 0x201C ∨ n = 0x201D ∨ n = 0x201E then [34]
  else if n = 0x2013 ∨ n = 0x2014 then [45]
  else if n = 0x2026 then [46, 46, 46]
  else if n = 0xD7 then [120]
  else if n = 0x2022 then [45]
  else [n]

/-- `PUNCTUATION_MAP` substitution over a whole string. -/
def punctStr (l : List Nat) : List Nat := l.flatMap punctSub

/-- `re.sub(r"\s+", " ", s)`: every maximal whitespace run becomes a single
space.  The flag records whether the previous character was whitespace. -/
def collapseWs : Bool → List Nat → List Nat
  | _, [] => []
  | prev, c :: rest =>
    if isWs c then
      if prev then collapseWs true rest else 32 :: collapseWs true rest
    else c :: collapseWs false rest

/-- Leading-whitespace trim (half of `str.strip()`). -/
def trimLeft (l : List Nat) : List Nat := l.dropWhile (fun c => isWs c)

/-- Trailing-whitespace trim (the other half of `str.strip()`). -/
def trimRight (l : List Nat) : List Nat := (trimLeft l.reverse).reverse

/-- `str.strip()`. -/
def trimBoth (l : List Nat) : List Nat := trimRight (trimLeft l)

/-- The article `the` of `ARTICLE_PATTERNS`. -/
def theCodes : List Nat := codes "the"

/-- The article `a` of `ARTICLE_PATTERNS`. -/
def aCodes : List Nat := codes "a"

/-- The article `an` of `ARTICLE_PATTERNS`. -/
def anCodes : List Nat := codes "an"

/-- `re.match(r"^<art>\s+", s)` followed by `s[match.end():].strip()`:
`some rest` when the pattern matches (the article followed by at least one
whitespace character), `none` otherwise.  `re.IGNORECASE` is immaterial since
the input is already lowercased at this point of the pipeline. -/
def stripArticle (art s : List Nat) : Option (List Nat) :=
  if art.isPrefixOf s then
    match s.drop art.length with
    | [] => none
    | c :: rest =>
      if isWs c then some (trimBoth ((c :: rest).dropWhile (fun d => isWs d)))
      else none
  else none

/-- The article-prefix loop of `normalize_string`: try `the`, `a`, `an` in
order; on the first match, rewrite `<art> X` to `X, <art>` provided the rest
is nonempty, and stop (the source `break`s whether or not it rewrote). -/
def applyArticles (s : List Nat) : List Nat :=
  match stripArticle theCodes s with
  | some rest => if rest.isEmpty then s else rest ++ [44, 32] ++ theCodes
  | none =>
    match stripArticle aCodes s with
    | some rest => if rest.isEmpty then s else rest ++ [44, 32] ++ aCodes
    | none =>
      match stripArticle anCodes s with
      | some rest => if rest.isEmpty then s else rest ++ [44, 32] ++ anCodes
      | none => s

/-- Steps 1–4 of `MetadataNormalizer.normalize_string`: NFKC (modelled as the
identity, see module comment), lowercase, punctuation substitution,
whitespace collapse, trim. -/
def normCore (l : List Nat) : List Nat :=
  trimBoth (collapseWs false (punctStr (lowerStr l)))

/-- `MetadataNormalizer.normalize_string(value, move_article_to_end)`.
The `remove_featuring` branch is not modelled: `normalize_title`,
`normalize_artist` and `normalize_album` — the only normalizer entry points
the deduplication service calls — all leave it at its default `False`. -/
def normalize_string (moveArticleToEnd : Bool) :
    Option (List Nat) → Option (List Nat)
  | none => none
  | some v =>
    if v.isEmpty then none
    else
      let n := if moveArticleToEnd then applyArticles (normCore v) else normCore v
      if n.isEmpty then none else some n

/-- `MetadataNormalizer.normalize_artist`. -/
def normalize_artist (a : Option (List Nat)) : Option (List Nat) :=
  normalize_string true a

/-- `MetadataNormalizer.normalize_album`. -/
def normalize_album (a : Option (List Nat)) : Option (List Nat) :=
  normalize_string true a

/-- `MetadataNormalizer.normalize_title`. -/
def normalize_title (t : Option (List Nat)) : Option (List Nat) :=
  normalize_string false t

example : normalize_title (some (codes "Test Song ")) = some (codes "test song") := by decide
example : normalize_artist (some (codes "The Beatles")) = some (codes "beatles, the") := by decide
example : normalize_artist (some (codes "the the x")) = some (codes "the x, the") := by decide
example : normalize_artist (some (codes "the x, the")) = some (codes "x, the, the") := by decide

/-! ## Idempotence infrastructure for the normalizer (claim C6) -/

/-- No two adjacent whitespace characters. -/
def noAdjWs (l : List Nat) : Prop :=
  List.Chain' (fun a b => isWs a = false ∨ isWs b = false) l

theorem lowerCode_idem (c : Nat) : lowerCode (lowerCode c) = lowerCode c := by
  unfold lowerCode; split_ifs <;> omega

theorem punctSub_lower_stable (c d : Nat) (hd : d ∈ punctSub (lowerCode c)) :
    lowerCode d = d ∧ punctSub d = [d] := by
  unfold punctSub at hd
  split_ifs at hd with h1 h2 h3 h4 h5 h6
  · simp at hd; subst hd; exact ⟨by decide, by decide⟩
  · simp at hd; subst hd; exact ⟨by decide, by decide⟩
  · simp at hd; subst hd; exact ⟨by decide, by decide⟩
  · simp at hd; subst hd; exact ⟨by decide, by decide⟩
  · simp at hd; subst hd; exact ⟨by decide, by decide⟩
  · simp at hd; subst hd; exact ⟨by decide, by decide⟩
  · simp at hd; subst hd
    refine ⟨lowerCode_idem c, ?_⟩
    unfold punctSub
    rw [if_neg h1, if_neg h2, if_neg h3, if_neg h4, if_neg h5, if_neg h6]

theorem mem_punct_lower_stable (v : List Nat) (d : Nat)
    (hd : d ∈ punctStr (lowerStr v)) : lowerCode d = d ∧ punctSub d = [d] := by
  unfold punctStr lowerStr at hd
  rw [List.mem_flatMap] at hd
  obtain ⟨c, hc, hd⟩ := hd
  rw [List.mem_map] at hc
  obtain ⟨c0, _, rfl⟩ := hc
  exact punctSub_lower_stable c0 d hd

theorem mem_collapseWs (prev : Bool) (l : List Nat) (d : Nat)
    (hd : d ∈ collapseWs prev l) : (d ∈ l ∧ isWs d = false) ∨ d = 32 := by
  induction l generalizing prev with
  | nil => simp [collapseWs] at hd
  | cons c rest ih =>
    simp only [collapseWs] at hd
    split_ifs at hd with hws hprev
    · rcases ih true hd with ⟨h1, h2⟩ | h
      · exact Or.inl ⟨List.mem_cons_of_mem _ h1, h2⟩
      · exact Or.inr h
    · rcases List.mem_cons.mp hd with rfl | h
      · exact Or.inr rfl
      · rcases ih true h with ⟨h1, h2⟩ | h'
        · exact Or.inl ⟨List.mem_cons_of_mem _ h1, h2⟩
        · exact Or.inr h'
    · rcases List.mem_cons.mp hd with rfl | h
      · exact Or.inl ⟨List.mem_cons_self _ _, by simpa using hws⟩
      · rcases ih false h with ⟨h1, h2⟩ | h'
        · exact Or.inl ⟨List.mem_cons_of_mem _ h1, h2⟩
        · exact Or.inr h'

theorem collapseWs_true_head (l : List Nat) (d : Nat) (t : List Nat)
    (h : collapseWs true l = d :: t) : isWs d = false := by
  induction l with
  | nil => simp [collapseWs] at h
  | cons c rest ih =>
    simp only [collapseWs] at h
    split_ifs at h with hws
    · exact ih h
    · injection h with h1 _
      subst h1
      simpa using hws

theorem collapseWs_chain (prev : Bool) (l : List Nat) :
    noAdjWs (collapseWs prev l) := by
  induction l generalizing prev with
  | nil => simp [collapseWs, noAdjWs]
  | cons c rest ih =>
    simp only [collapseWs]
    split_ifs with hws hprev
    · exact ih true
    · rw [noAdjWs, List.chain'_cons']
      refine ⟨?_, ih true⟩
      intro b hb
      right
      cases hh : collapseWs true rest with
      | nil => rw [hh] at hb; simp at hb
      | cons e t =>
        rw [hh] at hb
        simp only [List.head?_cons, Option.mem_def, Option.some.injEq] at hb
        subst hb
        exact collapseWs_true_head rest e t hh
    · rw [noAdjWs, List.chain'_cons']
      exact ⟨fun b _ => Or.inl (by simpa using hws), ih false⟩

theorem collapseWs_true_of_head (l : List Nat)
    (hl : ∀ d t, l = d :: t → isWs d = false) :
    collapseWs true l = collapseWs false l := by
  cases l with
  | nil => rfl
  | cons c rest =>
    have : isWs c = false := hl c rest rfl
    simp [collapseWs, this]

theorem collapseWs_eq_self (l : List Nat) (hchain : noAdjWs l)
    (h32 : ∀ d ∈ l, isWs d = true → d = 32) : collapseWs false l = l := by
  induction l with
  | nil => rfl
  | cons c rest ih =>
    rw [noAdjWs, List.chain'_cons'] at hchain
    obtain ⟨hR, htail⟩ := hchain
    by_cases hws : isWs c = true
    · have hc : c = 32 := h32 c (List.mem_cons_self _ _) hws
      have hhead : ∀ d t, rest = d :: t → isWs d = false := by
        intro d t hdt
        have := hR d (by rw [hdt]; simp)
        rcases this with h | h
        · rw [hws] at h; cases h
        · exact h
      simp only [collapseWs, hws, if_true, hc]
      rw [collapseWs_true_of_head rest hhead,
        ih htail (fun d hd hw => h32 d (List.mem_cons_of_mem _ hd) hw)]
      simp
    · simp only [collapseWs, hws, if_false]
      rw [ih htail (fun d hd hw => h32 d (List.mem_cons_of_mem _ hd) hw)]
      simp [hws]

theorem trimLeft_idem (l : List Nat) : trimLeft (trimLeft l) = trimLeft l := by
  unfold trimLeft
  exact List.dropWhile_idempotent _ _

theorem trimRight_idem (l : List Nat) : trimRight (trimRight l) = trimRight l := by
  unfold trimRight
  rw [List.reverse_reverse, trimLeft_idem]

theorem trimRight_isPrefixOf (l : List Nat) : trimRight l <+: l := by
  unfold trimRight trimLeft
  rw [← List.reverse_suffix]
  simpa using List.dropWhile_suffix (l := l.reverse) (fun c => isWs c)

theorem trimLeft_head (l : List Nat) (d : Nat) (t : List Nat)
    (h : trimLeft l = d :: t) : isWs d = false := by
  induction l with
  | nil => simp [trimLeft] at h
  | cons c rest ih =>
    rw [trimLeft, List.dropWhile_cons] at h
    split_ifs at h with hws
    · exact ih h
    · injection h with h1 _
      subst h1
      simpa using hws

theorem trimLeft_eq_self_of_head (l : List Nat)
    (h : ∀ d t, l = d :: t → isWs d = false) : trimLeft l = l := by
  cases l with
  | nil => rfl
  | cons c rest =>
    rw [trimLeft, List.dropWhile_cons, if_neg]
    simp [h c rest rfl]

theorem trimBoth_idem (l : List Nat) : trimBoth (trimBoth l) = trimBoth l := by
  unfold trimBoth
  have h1 : trimLeft (trimRight (trimLeft l)) = trimRight (trimLeft l) := by
    apply trimLeft_eq_self_of_head
    intro d t h
    have hp := trimRight_isPrefixOf (trimLeft l)
    rw [h] at hp
    obtain ⟨r, hr⟩ := hp
    exact trimLeft_head l d (t ++ r) (by rw [← hr]; simp)
  rw [h1, trimRight_idem]

theorem mem_trimBoth (l : List Nat) (d : Nat) (h : d ∈ trimBoth l) : d ∈ l := by
  unfold trimBoth at h
  have h2 : d ∈ trimLeft l := (trimRight_isPrefixOf (trimLeft l)).sublist.mem h
  exact (List.dropWhile_sublist _).mem h2

theorem noAdjWs_trimBoth (l : List Nat) (h : noAdjWs l) : noAdjWs (trimBoth l) := by
  unfold trimBoth
  have h2 : noAdjWs (trimLeft l) := h.suffix (List.dropWhile_suffix _)
  exact h2.prefix (trimRight_isPrefixOf _)

theorem lowerStr_eq_self (l : List Nat) (h : ∀ d ∈ l, lowerCode d = d) :
    lowerStr l = l := by
  unfold lowerStr
  rw [List.map_congr_left h]
  simp

theorem punctStr_eq_self (l : List Nat) (h : ∀ d ∈ l, punctSub d = [d]) :
    punctStr l = l := by
  unfold punctStr
  induction l with
  | nil => rfl
  | cons c rest ih =>
    rw [List.flatMap_cons, h c (List.mem_cons_self _ _),
      ih (fun d hd => h d (List.mem_cons_of_mem _ hd))]
    rfl

theorem normCore_stable (v : List Nat) (d : Nat) (hd : d ∈ normCore v) :
    lowerCode d = d ∧ punctSub d = [d] := by
  unfold normCore at hd
  have hd2 := mem_trimBoth _ _ hd
  rcases mem_collapseWs false _ _ hd2 with ⟨h, _⟩ | rfl
  · exact mem_punct_lower_stable v d h
  · exact ⟨by decide, by decide⟩

theorem normCore_ws32 (v : List Nat) (d : Nat) (hd : d ∈ normCore v)
    (hw : isWs d = true) : d = 32 := by
  unfold normCore at hd
  have hd2 := mem_trimBoth _ _ hd
  rcases mem_collapseWs false _ _ hd2 with ⟨_, h⟩ | rfl
  · rw [hw] at h; cases h
  · rfl

theorem normCore_idem (v : List Nat) : normCore (normCore v) = normCore v := by
  have h1 : lowerStr (normCore v) = normCore v :=
    lowerStr_eq_self _ (fun d hd => (normCore_stable v d hd).1)
  have h2 : punctStr (normCore v) = normCore v :=
    punctStr_eq_self _ (fun d hd => (normCore_stable v d hd).2)
  have hchain : noAdjWs (normCore v) :=
    noAdjWs_trimBoth _ (collapseWs_chain false _)
  have h3 : collapseWs false (normCore v) = normCore v :=
    collapseWs_eq_self _ hchain (normCore_ws32 v)
  show trimBoth (collapseWs false (punctStr (lowerStr (normCore v)))) = normCore v
  rw [h1, h2, h3]
  exact trimBoth_idem _

theorem normalize_title_some (v : List Nat) :
    normalize_title (some v) =
      if v.isEmpty then none
      else if (normCore v).isEmpty then none else some (normCore v) := by
  unfold normalize_title normalize_string
  by_cases hv : v.isEmpty <;> simp [hv]

/-- C6 (amended): normalization is idempotent for the non-article-moving
variant (`normalize_title`, used for titles); the article-moving variant
(artist/album) is not idempotent in general — see the counterexample. -/
theorem C6_normalize_title_idempotent (v : Option (List Nat)) :
    normalize_title (normalize_title v) = normalize_title v := by
  cases v with
  | none => rfl
  | some v =>
    rw [normalize_title_some v]
    by_cases hv : v.isEmpty
    · rw [if_pos hv]; rfl
    · rw [if_neg hv]
      by_cases hn : (normCore v).isEmpty
      · rw [if_pos hn]; rfl
      · rw [if_neg hn, normalize_title_some, normCore_idem, if_neg hn, if_neg hn]

/-- C6 (failure of the claim as stated): for the article-moving variant,
normalizing `"the the x"` twice differs from normalizing it once
(`"the x, the"` vs `"x, the, the"`). -/
theorem C6_counterexample :
    normalize_artist (normalize_artist (some (codes "the the x"))) ≠
      normalize_artist (some (codes "the the x")) := by decide

/-! ## Data model: `Track` rows and Python truthiness -/

/-- The fields of a `Track` row (`backend/app/models/track.py`) consumed by
the deduplication service.  Strings are code-point lists; every nullable
column is an `Option`. -/
structure Track where
  id : Nat
  filePath : List Nat
  title : Option (List Nat)
  artist : Option (List Nat)
  album : Option (List Nat)
  genre : Option (List Nat)
  year : Option Nat
  trackNumber : Option Nat
  durationMs : Option Nat
  bitrate : Option Nat
  sampleRate : Option Nat
  format : Option (List Nat)
  fileSize : Option Nat
  artworkPath : Option (List Nat)
  fileHash : Option (List Nat)
  playCount : Option Nat
  titleNormalized : Option (List Nat)
  artistNormalized : Option (List Nat)
  albumNormalized : Option (List Nat)
  metadataCompleteness : Option Nat
  deriving Repr, DecidableEq

/-- Python truthiness of an optional string: `None` and `""` are falsy. -/
def truthyStr (o : Option (List Nat)) : Option (List Nat) :=
  match o with
  | some l => if l.isEmpty then none else some l
  | none => none

/-- Python truthiness of an optional integer: `None` and `0` are falsy. -/
def truthyNat (o : Option Nat) : Option Nat :=
  match o with
  | some n => if n = 0 then none else some n
  | none => none

/-- Python `x or y` on optional strings: `y` whenever `x` is falsy. -/
def pyOrStr (a b : Option (List Nat)) : Option (List Nat) :=
  match truthyStr a with
  | some x => some x
  | none => b

/-! ## `MetadataNormalizer.calculate_completeness` and the quality scorer -/

/-- `MetadataNormalizer.calculate_completeness`: fixed weights summed over
truthy fields (title 20, artist 25, album 15, year 10, genre 10,
artwork 10, track number 5, bitrate 5). -/
def calculate_completeness (title artist album : Option (List Nat))
    (year : Option Nat) (genre artworkPath : Option (List Nat))
    (trackNumber bitrate : Option Nat) : Nat :=
  (if (truthyStr title).isSome then 20 else 0) +
    (if (truthyStr artist).isSome then 25 else 0) +
    (if (truthyStr album).isSome then 15 else 0) +
    (if (truthyNat year).isSome then 10 else 0) +
    (if (truthyStr genre).isSome then 10 else 0) +
    (if (truthyStr artworkPath).isSome then 10 else 0) +
    (if (truthyNat trackNumber).isSome then 5 else 0) +
    (if (truthyNat bitrate).isSome then 5 else 0)

/-- ASCII `str.upper()` on one code point. -/
def upperCode (n : Nat) : Nat := if 97 ≤ n ∧ n ≤ 122 then n - 32 else n

/-- ASCII `str.upper()` over a whole string. -/
def upperStr (l : List Nat) : List Nat := l.map upperCode

/-- `DeduplicationService.FORMAT_SCORES.get(name, 50)`. -/
def FORMAT_SCORES (f : List Nat) : Nat :=
  if f = codes "FLAC" then 100
  else if f = codes "WAV" then 95
  else if f = codes "ALAC" then 90
  else if f = codes "M4A" then 80
  else if f = codes "AAC" then 75
  else if f = codes "OGG" then 70
  else if f = codes "MP3" then 60
  else if f = codes "WMA" then 50
  else 50

/-- Python `round` to the nearest integer, ties to even. -/
def bankersRound (x : ℚ) : ℤ :=
  if x - ⌊x⌋ < 1/2 then ⌊x⌋
  else if 1/2 < x - ⌊x⌋ then ⌊x⌋ + 1
  else if ⌊x⌋ % 2 = 0 then ⌊x⌋ else ⌊x⌋ + 1

/-- Python `round(x, 2)` on the exact-rational model of floats. -/
def round2 (x : ℚ) : ℚ := (bankersRound (x * 100) : ℚ) / 100

/-- `DeduplicationService.calculate_quality_score`: weighted sum of bitrate,
sample rate, container format, metadata completeness, artwork presence and
file size, scaled to 0–100 and rounded to two decimals.  The bitrate,
sample-rate, artwork and file-size terms are gated on truthiness of their
field; the format term always contributes (`FORMAT_SCORES.get(..., 50)`),
and a falsy stored completeness is recomputed from the track's fields. -/
def calculate_quality_score (track : Track) : ℚ :=
  let bitrateTerm : ℚ :=
    match truthyNat track.bitrate with
    | some b => min ((b : ℚ) / 320) 1 * (25/100)
    | none => 0
  let sampleTerm : ℚ :=
    match truthyNat track.sampleRate with
    | some r => min ((r : ℚ) / 96000) 1 * (15/100)
    | none => 0
  let formatName : List Nat :=
    match truthyStr track.format with
    | some f => upperStr f
    | none => []
  let formatTerm : ℚ := ((FORMAT_SCORES formatName : ℚ) / 100) * (20/100)
  let completeness : ℚ :=
    match truthyNat track.metadataCompleteness with
    | some c => (c : ℚ)
    | none =>
      (calculate_completeness track.title track.artist track.album track.year
        track.genre track.artworkPath track.trackNumber track.bitrate : ℚ)
  let completenessTerm : ℚ := (completeness / 100) * (20/100)
  let artworkTerm : ℚ := if (truthyStr track.artworkPath).isSome then (10/100 : ℚ) else 0
  let sizeTerm : ℚ :=
    match truthyNat track.fileSize with
    | some s => min ((s : ℚ) / (50 * 1024 * 1024)) 1 * (10/100)
    | none => 0
  round2 ((bitrateTerm + sampleTerm + formatTerm + completenessTerm +
    artworkTerm + sizeTerm) * 100)

/-- A track with every quality signal absent. -/
def emptyTrack : Track :=
  { id := 1, filePath := codes "/library/a.mp3", title := none, artist := none,
    album := none, genre := none, year := none, trackNumber := none,
    durationMs := none, bitrate := none, sampleRate := none, format := none,
    fileSize := none, artworkPath := none, fileHash := none, playCount := none,
    titleNormalized := none, artistNormalized := none, albumNormalized := none,
    metadataCompleteness := none }

theorem FORMAT_SCORES_nil : FORMAT_SCORES [] = 50 := by decide

theorem calculate_completeness_none :
    calculate_completeness none none none none none none none none = 0 := by decide

/-- C7 (amended): every weighted term of the quality score except the
container-format term is present only if its input field is truthy, and the
format term always contributes `FORMAT_SCORES.get(name, 50)`; hence an entry
with no bitrate, no sample rate, no container format, completeness 0, no
artwork and no file size scores exactly 10.0, not 0. -/
theorem C7_quality_score_all_absent (t : Track)
    (hb : truthyNat t.bitrate = none) (hs : truthyNat t.sampleRate = none)
    (hf : truthyStr t.format = none)
    (hc : truthyNat t.metadataCompleteness = none)
    (ht : truthyStr t.title = none) (ha : truthyStr t.artist = none)
    (hal : truthyStr t.album = none) (hy : truthyNat t.year = none)
    (hg : truthyStr t.genre = none) (hart : truthyStr t.artworkPath = none)
    (htn : truthyNat t.trackNumber = none)
    (hfs : truthyNat t.fileSize = none) :
    calculate_quality_score t = 10 := by
  norm_num [calculate_quality_score, calculate_completeness, hb, hs, hf, hc,
    ht, ha, hal, hy, hg, hart, htn, hfs, FORMAT_SCORES_nil, round2,
    bankersRound]

/-- C7 witness: the all-absent track realizes the amended claim. -/
theorem C7_quality_score_all_absent_witness :
    calculate_quality_score emptyTrack = 10 :=
  C7_quality_score_all_absent emptyTrack rfl rfl rfl rfl rfl rfl rfl rfl rfl
    rfl rfl rfl

/-- C7 (failure of the claim as stated): the track with every quality signal
absent scores 10, not the claimed 0 — the format term contributes its
default-50 rank even with no container format. -/
theorem C7_counterexample_empty_track :
    calculate_quality_score emptyTrack = 10 ∧
      calculate_quality_score emptyTrack ≠ 0 := by
  constructor
  · norm_num [calculate_quality_score, truthyNat, truthyStr, emptyTrack,
      FORMAT_SCORES_nil, calculate_completeness_none, round2, bankersRound]
  · norm_num [calculate_quality_score, truthyNat, truthyStr, emptyTrack,
      FORMAT_SCORES_nil, calculate_completeness_none, round2, bankersRound]

/-! ## `difflib.SequenceMatcher` (no junk predicate, as the source uses it) -/

/-- `SequenceMatcher.__chain_b`'s `b2j`: indices of `x` in `b` in increasing
order, with the autojunk rule (for `len(b) ≥ 200`, elements occurring more
than `len(b)//100 + 1` times are dropped). -/
def b2j (b : List Nat) (x : Nat) : List Nat :=
  let idxs := (b.enum.filter (fun p => p.2 == x)).map (fun p => p.1)
  if 200 ≤ b.length ∧ b.length / 100 + 1 < idxs.length then [] else idxs

/-- The left-extension loop of `find_longest_match` (the junk variants are
no-ops since no junk predicate is supplied).  Fuelled structural recursion:
`bi` strictly decreases and the loop halts once `bi ≤ alo`, so `bi` itself
is enough fuel (the caller passes it). -/
def extendLeftFuel (a b : List Nat) (alo blo : Nat) :
    Nat → Nat × Nat × Nat → Nat × Nat × Nat
  | 0, st => st
  | fuel + 1, st =>
    let bi := st.1
    let bj := st.2.1
    let bs := st.2.2
    if alo < bi ∧ blo < bj ∧ a.getD (bi - 1) 0 = b.getD (bj - 1) 0 then
      extendLeftFuel a b alo blo fuel (bi - 1, bj - 1, bs + 1)
    else st

/-- The right-extension loop of `find_longest_match`.  `bi + bs` strictly
increases and the loop halts once it reaches `ahi`, so `ahi` is enough fuel
(the caller passes it). -/
def extendRightFuel (a b : List Nat) (ahi bhi bi bj : Nat) : Nat → Nat → Nat
  | 0, bs => bs
  | fuel + 1, bs =>
    if bi + bs < ahi ∧ bj + bs < bhi ∧ a.getD (bi + bs) 0 = b.getD (bj + bs) 0 then
      extendRightFuel a b ahi bhi bi bj fuel (bs + 1)
    else bs

/-- `SequenceMatcher.find_longest_match(alo, ahi, blo, bhi)`: the rolling
`j2len` dynamic program over `a[alo:ahi]` / `b[blo:bhi]`, followed by the
extension loops.  `j2len` is modelled as a total function defaulting to 0
(the dict's `.get(j-1, 0)`, with `j = 0` reading the absent key `-1`). -/
def find_longest_match (a b : List Nat) (alo ahi blo bhi : Nat) :
    Nat × Nat × Nat :=
  let init : (Nat → Nat) × (Nat × Nat × Nat) := (fun _ => 0, (alo, blo, 0))
  let main := (List.range' alo (ahi - alo)).foldl
    (fun (st : (Nat → Nat) × (Nat × Nat × Nat)) i =>
      let js := (b2j b (a.getD i 0)).filter (fun j => blo ≤ j ∧ j < bhi)
      js.foldl
        (fun (st2 : (Nat → Nat) × (Nat × Nat × Nat)) j =>
          let k := (if j = 0 then 0 else st.1 (j - 1)) + 1
          ((fun j2 => if j2 = j then k else st2.1 j2),
            if st2.2.2.2 < k then (i + 1 - k, j + 1 - k, k) else st2.2))
        ((fun _ => 0 : Nat → Nat), st.2))
    init
  let bi := main.2.1
  let left := extendLeftFuel a b alo blo bi (bi, main.2.2.1, main.2.2.2)
  (left.1, left.2.1, extendRightFuel a b ahi bhi left.1 left.2.1 ahi left.2.2)

/-- `SequenceMatcher.get_matching_blocks`, fuelled form of the divide-and-
conquer recursion (the fuel strictly bounds the recursion depth, which is at
most `(ahi - alo) + (bhi - blo)`; the top-level call passes enough).  Only
the multiset of block sizes matters to `ratio`, so the source's queue order
and the final merge of adjacent blocks are immaterial here. -/
def matchingBlocksFuel (a b : List Nat) :
    Nat → Nat → Nat → Nat → Nat → List (Nat × Nat × Nat)
  | 0, _, _, _, _ => []
  | fuel + 1, alo, ahi, blo, bhi =>
    let m := find_longest_match a b alo ahi blo bhi
    let i := m.1
    let j := m.2.1
    let k := m.2.2
    if k = 0 then []
    else
      (if alo < i ∧ blo < j then matchingBlocksFuel a b fuel alo i blo j else [])
        ++ [(i, j, k)] ++
        (if i + k < ahi ∧ j + k < bhi then
          matchingBlocksFuel a b fuel (i + k) ahi (j + k) bhi
        else [])

/-- The total size `M` of the matching blocks of `a` and `b`. -/
def matchSum (a b : List Nat) : Nat :=
  ((matchingBlocksFuel a b (a.length + b.length + 1) 0 a.length 0
    b.length).map (fun x => x.2.2)).sum

/-- `SequenceMatcher(None, a, b).ratio()`: `2·M / (len(a)+len(b))`;
`_calculate_ratio` returns 1.0 on two empty sequences. -/
def ratio (a b : List Nat) : ℚ :=
  if 0 < a.length + b.length then
    (2 * (matchSum a b : ℚ)) / ((a.length : ℚ) + b.length)
  else 1

theorem matchSum_test_song :
    matchSum (codes "test song") (codes "test song") = 9 := by decide

theorem matchSum_x : matchSum (codes "x") (codes "x") = 1 := by decide

example : ratio (codes "test song") (codes "test song") = 1 := by
  rw [ratio, matchSum_test_song]
  norm_num [codes]

/-! ## Fuzzy metadata matching (claim C1) -/

/-- The effective title of `_calculate_metadata_similarity`:
`track.title_normalized or normalizer.normalize_title(track.title)`. -/
def effTitle (t : Track) : Option (List Nat) :=
  pyOrStr t.titleNormalized (normalize_title t.title)

/-- `track.artist_normalized or normalizer.normalize_artist(track.artist)`. -/
def effArtist (t : Track) : Option (List Nat) :=
  pyOrStr t.artistNormalized (normalize_artist t.artist)

/-- `track.album_normalized or normalizer.normalize_album(track.album)`. -/
def effAlbum (t : Track) : Option (List Nat) :=
  pyOrStr t.albumNormalized (normalize_album t.album)

/-- `DeduplicationService._calculate_metadata_similarity`: builds the list of
weighted component scores (title ×0.5 when both titles are truthy;
artist ×0.35 when both artists are truthy, a flat 0.35 when both are falsy;
album ×0.15 when both albums are truthy) and returns
`sum(scores) / max(len(scores), 1)` — 0 when no component scored. -/
def calculate_metadata_similarity (t1 t2 : Track) : ℚ :=
  let titleScores : List ℚ :=
    match truthyStr (effTitle t1), truthyStr (effTitle t2) with
    | some a, some b => [ratio a b * (50 / 100)]
    | _, _ => []
  let artistScores : List ℚ :=
    match truthyStr (effArtist t1), truthyStr (effArtist t2) with
    | some a, some b => [ratio a b * (35 / 100)]
    | none, none => [(35 / 100 : ℚ)]
    | _, _ => []
  let albumScores : List ℚ :=
    match truthyStr (effAlbum t1), truthyStr (effAlbum t2) with
    | some a, some b => [ratio a b * (15 / 100)]
    | _, _ => []
  let scores := titleScores ++ artistScores ++ albumScores
  if scores.isEmpty then 0 else scores.sum / (max scores.length 1 : ℚ)

/-- `DeduplicationService._duration_matches`: `True` when either duration is
falsy, else `|d1 - d2| ≤ DURATION_TOLERANCE_MS` (2000). -/
def duration_matches (t1 t2 : Track) : Bool :=
  match truthyNat t1.durationMs, truthyNat t2.durationMs with
  | some d1, some d2 => max d1 d2 - min d1 d2 ≤ 2000
  | _, _ => true

/-- The inner loop of `_find_fuzzy_metadata_duplicates` for anchor `t1`:
walk the later tracks, skipping processed ids, and claim every track whose
combined similarity reaches `FUZZY_THRESHOLD` (0.85) and whose duration is
within tolerance.  Returns the grown group and the processed-id set. -/
def fuzzyScan (t1 : Track) (rest : List Track) (processed : List Nat) :
    List Track × List Nat :=
  rest.foldl
    (fun (acc : List Track × List Nat) t2 =>
      if t2.id ∈ acc.2 then acc
      else if (85 / 100 : ℚ) ≤ calculate_metadata_similarity t1 t2 ∧
          duration_matches t1 t2 then
        (acc.1 ++ [t2], t2.id :: acc.2)
      else acc)
    ([t1], t1.id :: processed)

/-- The outer loop of `_find_fuzzy_metadata_duplicates`: greedy,
order-dependent clustering; an entry claimed by a cluster never joins
another. -/
def fuzzyLoop : List Track → List Nat → List (List Track)
  | [], _ => []
  | t1 :: rest, processed =>
    if t1.id ∈ processed then fuzzyLoop rest processed
    else
      let g := fuzzyScan t1 rest processed
      if 1 < g.1.length then g.1 :: fuzzyLoop rest g.2
      else fuzzyLoop rest g.2

/-- `DeduplicationService._find_fuzzy_metadata_duplicates`. -/
def find_fuzzy_metadata_duplicates (tracks : List Track) : List (List Track) :=
  fuzzyLoop tracks []

/-- Track A of the specification's fuzzy-threshold boundary test. -/
def trackA : Track :=
  { id := 1, filePath := codes "/library/a.mp3",
    title := some (codes "Test Song"), artist := some (codes "X"),
    album := none, genre := none, year := none, trackNumber := none,
    durationMs := some 200000, bitrate := none, sampleRate := none,
    format := none, fileSize := none, artworkPath := none, fileHash := none,
    playCount := none, titleNormalized := none, artistNormalized := none,
    albumNormalized := none, metadataCompleteness := none }

/-- Track B: title differs from A only by trailing whitespace. -/
def trackB : Track :=
  { trackA with
    id := 2
    filePath := codes "/library/b.mp3"
    title := some (codes "Test Song ") }

theorem ratio_test_song_eq :
    ratio (codes "test song") (codes "test song") = 1 := by
  rw [ratio, matchSum_test_song]
  norm_num [codes]

theorem ratio_x_eq : ratio (codes "x") (codes "x") = 1 := by
  rw [ratio, matchSum_x]
  norm_num [codes]

theorem similarity_trackA_trackB :
    calculate_metadata_similarity trackA trackB = 17 / 40 := by
  have h1 : truthyStr (effTitle trackA) = some (codes "test song") := by decide
  have h2 : truthyStr (effTitle trackB) = some (codes "test song") := by decide
  have h3 : truthyStr (effArtist trackA) = some (codes "x") := by decide
  have h4 : truthyStr (effArtist trackB) = some (codes "x") := by decide
  have h5 : truthyStr (effAlbum trackA) = none := by decide
  have h6 : truthyStr (effAlbum trackB) = none := by decide
  simp only [calculate_metadata_similarity, h1, h2, h3, h4, h5, h6]
  rw [ratio_test_song_eq, ratio_x_eq]
  norm_num

/-- C1 (code bug): for the spec's boundary pair — titles `"Test Song"` /
`"Test Song "`, identical artist, identical duration, neither hashed — the
combined similarity the code computes is `(0.5·1 + 0.35·1)/2 = 0.425`, which
is below the 0.85 threshold because `_calculate_metadata_similarity` divides
the already-weight-multiplied scores (weights summing to 1) by the score
count; consequently the fuzzy partitioner clusters nothing. -/
theorem C1_fuzzy_similarity_below_threshold :
    calculate_metadata_similarity trackA trackB = 17 / 40 ∧
      (17 / 40 : ℚ) < 85 / 100 ∧
      find_fuzzy_metadata_duplicates [trackA, trackB] = [] := by
  refine ⟨similarity_trackA_trackB, by norm_num, ?_⟩
  have hA : trackA.id = 1 := rfl
  have hB : trackB.id = 2 := rfl
  have hcond : ¬ ((85 / 100 : ℚ) ≤ calculate_metadata_similarity trackA trackB ∧
      duration_matches trackA trackB = true) := by
    rw [similarity_trackA_trackB]
    intro h
    have := h.1
    norm_num at this
  simp [find_fuzzy_metadata_duplicates, fuzzyLoop, fuzzyScan, hcond, hA, hB]

/-! ## Duration-bucket partitioner (claim C10) -/

/-- `round(track.duration_ms / 5000) * 5000`: Python `round` is
half-to-even, and `d/5000` is exact in double precision for any realistic
duration, so the bucket is the nearest multiple of 5000 with ties to the
even quotient. -/
def durationBucket (d : Nat) : Nat :=
  if d % 5000 < 2500 then d / 5000 * 5000
  else if 2500 < d % 5000 then (d / 5000 + 1) * 5000
  else if d / 5000 % 2 = 0 then d / 5000 * 5000 else (d / 5000 + 1) * 5000

/-- `defaultdict(list)` keyed by `(title_norm, duration_bucket)` in key-
insertion order: append to the existing bucket or open a new one at the
end. -/
def addBucket (bs : List ((List Nat × Nat) × List Track))
    (key : List Nat × Nat) (t : Track) :
    List ((List Nat × Nat) × List Track) :=
  match bs with
  | [] => [(key, [t])]
  | (k, g) :: rest =>
    if k = key then (k, g ++ [t]) :: rest else (k, g) :: addBucket rest key t

/-- One step of the bucket-building loop of `_find_duration_duplicates`:
an entry is bucketed only when `track.duration_ms` and `track.title` are
both truthy and the effective normalized title
(`title_normalized or normalize_title(title)`) is truthy. -/
def durationStep (bs : List ((List Nat × Nat) × List Track)) (t : Track) :
    List ((List Nat × Nat) × List Track) :=
  match truthyNat t.durationMs, truthyStr t.title with
  | some d, some _ =>
    match truthyStr (effTitle t) with
    | some tn => addBucket bs (tn, durationBucket d) t
    | none => bs
  | _, _ => bs

/-- `DeduplicationService._find_duration_duplicates`: fold the entries into
duration buckets and return the buckets with at least two members, in
key-insertion order. -/
def find_duration_duplicates (tracks : List Track) : List (List Track) :=
  ((tracks.foldl durationStep []).map (fun b => b.2)).filter
    (fun g => 1 < g.length)

/-- Entries that can enter a duration bucket at all. -/
def bucketable (t : Track) : Prop :=
  (truthyNat t.durationMs).isSome = true ∧ (truthyStr t.title).isSome = true ∧
    (truthyStr (effTitle t)).isSome = true

theorem mem_addBucket (bs : List ((List Nat × Nat) × List Track))
    (key : List Nat × Nat) (t : Track) (k : List Nat × Nat) (g : List Track)
    (hkg : (k, g) ∈ addBucket bs key t) :
    (k, g) ∈ bs ∨ (∃ g0, (k, g0) ∈ bs ∧ g = g0 ++ [t]) ∨ g = [t] := by
  induction bs with
  | nil =>
    simp [addBucket] at hkg
    exact Or.inr (Or.inr hkg.2)
  | cons hd rest ih =>
    obtain ⟨k1, g1⟩ := hd
    simp only [addBucket] at hkg
    split_ifs at hkg with heq
    · rcases List.mem_cons.mp hkg with h | h
      · rw [Prod.ext_iff] at h
        obtain ⟨hk, hg⟩ := h
        simp only at hk hg
        subst hk
        exact Or.inr (Or.inl ⟨g1, List.mem_cons_self _ _, hg⟩)
      · exact Or.inl (List.mem_cons_of_mem _ h)
    · rcases List.mem_cons.mp hkg with h | h
      · rw [h]
        exact Or.inl (List.mem_cons_self _ _)
      · rcases ih h with h1 | ⟨g0, hm, hg⟩ | h2
        · exact Or.inl (List.mem_cons_of_mem _ h1)
        · exact Or.inr (Or.inl ⟨g0, List.mem_cons_of_mem _ hm, hg⟩)
        · exact Or.inr (Or.inr h2)

theorem durationStep_invariant (bs : List ((List Nat × Nat) × List Track))
    (t : Track)
    (hbs : ∀ k g, (k, g) ∈ bs → ∀ t' ∈ g, bucketable t')
    (k : List Nat × Nat) (g : List Track) (hkg : (k, g) ∈ durationStep bs t)
    (t' : Track) (ht' : t' ∈ g) : bucketable t' := by
  rw [durationStep] at hkg
  cases hd : truthyNat t.durationMs with
  | none =>
    rw [hd] at hkg
    exact hbs k g hkg t' ht'
  | some d =>
    cases htt : truthyStr t.title with
    | none =>
      rw [hd, htt] at hkg
      exact hbs k g hkg t' ht'
    | some tt =>
      cases hn : truthyStr (effTitle t) with
      | none =>
        rw [hd, htt, hn] at hkg
        exact hbs k g hkg t' ht'
      | some tn =>
        rw [hd, htt, hn] at hkg
        have hbt : bucketable t := ⟨by simp [hd], by simp [htt], by simp [hn]⟩
        rcases mem_addBucket bs _ t k g hkg with h1 | ⟨g0, hm, rfl⟩ | rfl
        · exact hbs k g h1 t' ht'
        · rcases List.mem_append.mp ht' with h' | h'
          · exact hbs k g0 hm t' h'
          · simp at h'
            rw [h']
            exact hbt
        · simp at ht'
          rw [ht']
          exact hbt

theorem durationFold_invariant (tracks : List Track)
    (bs : List ((List Nat × Nat) × List Track))
    (hbs : ∀ k g, (k, g) ∈ bs → ∀ t' ∈ g, bucketable t')
    (k : List Nat × Nat) (g : List Track)
    (hkg : (k, g) ∈ tracks.foldl durationStep bs)
    (t' : Track) (ht' : t' ∈ g) : bucketable t' := by
  induction tracks generalizing bs with
  | nil => exact hbs k g hkg t' ht'
  | cons t rest ih =>
    rw [List.foldl_cons] at hkg
    exact ih _ (fun k1 g1 hm1 t1 hmem1 =>
      durationStep_invariant bs t hbs k1 g1 hm1 t1 hmem1) hkg

/-- C10: the duration-bucket partitioner considers an entry only when both
its duration and its title are truthy and the effective normalized title is
nonempty — every member of every returned bucket has a non-null duration
and a nonempty title normalization; an entry missing either never appears
in any bucket. -/
theorem C10_duration_bucket_requires_duration_and_title
    (tracks : List Track) (g : List Track)
    (hg : g ∈ find_duration_duplicates tracks) (t : Track) (ht : t ∈ g) :
    t.durationMs ≠ none ∧ truthyStr (effTitle t) ≠ none := by
  rw [find_duration_duplicates] at hg
  have hg2 := (List.mem_filter.mp hg).1
  rw [List.mem_map] at hg2
  obtain ⟨⟨k, g0⟩, hkg, rfl⟩ := hg2
  have hb : bucketable t :=
    durationFold_invariant tracks [] (by simp) k g0 hkg t ht
  obtain ⟨hd, _, hn⟩ := hb
  constructor
  · intro hnone
    simp [truthyNat, hnone] at hd
  · intro hnone
    rw [hnone] at hn
    simp at hn

/-- A bucketable track for the C10 witness. -/
def trackC : Track :=
  { trackA with
    id := 3
    filePath := codes "/library/c.mp3"
    title := some (codes "Song")
    artist := none }

/-- A second track sharing `trackC`'s normalized title and bucket. -/
def trackD : Track :=
  { trackA with
    id := 4
    filePath := codes "/library/d.mp3"
    title := some (codes "song")
    artist := none }

/-- C10 witness: a concrete bucketed pair satisfies the conclusion. -/
theorem C10_duration_bucket_witness :
    trackC.durationMs ≠ none ∧ truthyStr (effTitle trackC) ≠ none :=
  C10_duration_bucket_requires_duration_and_title [trackC, trackD]
    [trackC, trackD] (by decide) trackC (by decide)

/-! ## Group builder (claim C8) -/

/-- A `DuplicateGroupMember` row as `_create_duplicate_group` persists it
(the claim-relevant fields). -/
structure NewMember where
  trackId : Nat
  qualityScore : ℚ
  isMaster : Bool
  deriving Repr, DecidableEq

/-- Insert into a descending-by-score list, after any equal scores: together
with the left fold below this is exactly the unique stable descending sort
that Python's `sorted(key=lambda x: x[1], reverse=True)` produces. -/
def insertDesc (x : Track × ℚ) : List (Track × ℚ) → List (Track × ℚ)
  | [] => [x]
  | y :: ys => if y.2 < x.2 then x :: y :: ys else y :: insertDesc x ys

/-- `scored_tracks.sort(key=lambda x: x[1], reverse=True)`. -/
def sortDesc (l : List (Track × ℚ)) : List (Track × ℚ) :=
  l.foldl (fun acc x => insertDesc x acc) []

/-- `DeduplicationService._create_duplicate_group`, restricted to its
claim-relevant effect: score every track, sort stably by descending score,
emit one member per track with `is_master` on the first sorted member, and
designate that member's track as `master_track_id`.  (The persisted group's
remaining fields — the md5 `group_hash` of the sorted id list, the
detection type/reason strings and the initial `unresolved` status — carry
no logic.)  `none` on an empty cluster, where the source's
`scored_tracks[0]` would raise `IndexError`. -/
def create_duplicate_group (tracks : List Track) :
    Option (List NewMember × Nat) :=
  match sortDesc (tracks.map (fun t => (t, calculate_quality_score t))) with
  | [] => none
  | (t0, _) :: _ =>
    some (((sortDesc (tracks.map (fun t => (t, calculate_quality_score t)))).enum.map
      (fun p => ⟨p.2.1.id, p.2.2, p.1 == 0⟩), t0.id))

theorem mem_insertDesc (x z : Track × ℚ) (l : List (Track × ℚ))
    (h : z ∈ insertDesc x l) : z = x ∨ z ∈ l := by
  induction l with
  | nil => simpa [insertDesc] using h
  | cons y ys ih =>
    rw [insertDesc] at h
    split_ifs at h with hlt
    · rcases List.mem_cons.mp h with h' | h'
      · exact Or.inl h'
      · exact Or.inr h'
    · rcases List.mem_cons.mp h with h' | h'
      · exact Or.inr (h' ▸ List.mem_cons_self _ _)
      · rcases ih h' with h'' | h''
        · exact Or.inl h''
        · exact Or.inr (List.mem_cons_of_mem _ h'')

theorem insertDesc_pairwise (x : Track × ℚ) (l : List (Track × ℚ))
    (h : l.Pairwise (fun a b => b.2 ≤ a.2)) :
    (insertDesc x l).Pairwise (fun a b => b.2 ≤ a.2) := by
  induction l with
  | nil => simp [insertDesc]
  | cons y ys ih =>
    rw [List.pairwise_cons] at h
    obtain ⟨hy, hys⟩ := h
    rw [insertDesc]
    split_ifs with hlt
    · rw [List.pairwise_cons]
      refine ⟨?_, List.pairwise_cons.mpr ⟨hy, hys⟩⟩
      intro z hz
      rcases List.mem_cons.mp hz with rfl | hz'
      · exact le_of_lt hlt
      · exact le_trans (hy z hz') (le_of_lt hlt)
    · rw [List.pairwise_cons]
      refine ⟨?_, ih hys⟩
      intro z hz
      rcases mem_insertDesc x z ys hz with rfl | hz'
      · exact not_lt.mp hlt
      · exact hy z hz'

theorem sortDesc_pairwise (l : List (Track × ℚ)) :
    (sortDesc l).Pairwise (fun a b => b.2 ≤ a.2) := by
  rw [sortDesc]
  have main : ∀ acc, acc.Pairwise (fun (a b : Track × ℚ) => b.2 ≤ a.2) →
      (l.foldl (fun acc x => insertDesc x acc) acc).Pairwise
        (fun a b => b.2 ≤ a.2) := by
    induction l with
    | nil => intro acc h; simpa using h
    | cons x xs ih =>
      intro acc h
      rw [List.foldl_cons]
      exact ih _ (insertDesc_pairwise x acc h)
  exact main [] (by simp)

theorem mem_enumFromSnd (p : Nat × NewMember) (n : Nat)
    (l : List NewMember) (h : p ∈ List.enumFrom n l) : p.2 ∈ l := by
  induction l generalizing n with
  | nil => simp [List.enumFrom] at h
  | cons x xs ih =>
    rw [List.enumFrom] at h
    rcases List.mem_cons.mp h with rfl | h'
    · exact List.mem_cons_self _ _
    · exact List.mem_cons_of_mem _ (ih _ h')

theorem enumFrom_master_count (l : List (Track × ℚ)) (n : Nat) (hn : n ≠ 0) :
    ((List.enumFrom n l).map
      (fun p => (⟨p.2.1.id, p.2.2, p.1 == 0⟩ : NewMember))).countP
        (fun m => m.isMaster) = 0 := by
  induction l generalizing n with
  | nil => simp [List.enumFrom]
  | cons x xs ih =>
    rw [List.enumFrom, List.map_cons, List.countP_cons]
    have : ((n == 0) = true) = False := by simp [hn]
    simp only [this]
    rw [ih (n + 1) (by omega)]
    simp [hn]

theorem enumFrom_scores (l : List (Track × ℚ)) (n : Nat) (m : NewMember)
    (hm : m ∈ (List.enumFrom n l).map
      (fun p => (⟨p.2.1.id, p.2.2, p.1 == 0⟩ : NewMember))) :
    ∃ z ∈ l, m.qualityScore = z.2 := by
  induction l generalizing n with
  | nil => simp [List.enumFrom] at hm
  | cons x xs ih =>
    rw [List.enumFrom, List.map_cons] at hm
    rcases List.mem_cons.mp hm with rfl | h'
    · exact ⟨x, List.mem_cons_self _ _, rfl⟩
    · obtain ⟨z, hz, he⟩ := ih (n + 1) h'
      exact ⟨z, List.mem_cons_of_mem _ hz, he⟩

/-- C8: for any cluster of at least two entries, the group builder creates
exactly one member with `is_master = true`; that member is the head of the
stable score-sorted list — it carries a quality score no smaller than any
member's (ties resolved to the first occurrence in the sorted order) — and
`master_track_id` is exactly that member's track id. -/
theorem C8_single_master_highest_score (tracks : List Track)
    (h2 : 2 ≤ tracks.length) :
    ∃ ms master m0 rest, create_duplicate_group tracks = some (ms, master) ∧
      ms = m0 :: rest ∧ m0.isMaster = true ∧ master = m0.trackId ∧
      ms.countP (fun m => m.isMaster) = 1 ∧
      ∀ m ∈ ms, m.qualityScore ≤ m0.qualityScore := by
  have hlen : (sortDesc (tracks.map
      (fun t => (t, calculate_quality_score t)))).length = tracks.length := by
    rw [sortDesc]
    have step : ∀ (l : List (Track × ℚ)) acc,
        (l.foldl (fun acc x => insertDesc x acc) acc).length =
          l.length + acc.length := by
      intro l
      induction l with
      | nil => intro acc; simp
      | cons x xs ih =>
        intro acc
        rw [List.foldl_cons, ih]
        have : (insertDesc x acc).length = acc.length + 1 := by
          induction acc with
          | nil => simp [insertDesc]
          | cons y ys ihy =>
            rw [insertDesc]
            split_ifs
            · simp
            · simp only [List.length_cons, ihy]
        simp only [List.length_cons]
        omega
    rw [step]
    simp
  cases hs : sortDesc (tracks.map (fun t => (t, calculate_quality_score t))) with
  | nil => rw [hs] at hlen; simp at hlen; omega
  | cons s0 srest =>
    obtain ⟨t0, q0⟩ := s0
    have hpw := sortDesc_pairwise (tracks.map (fun t => (t, calculate_quality_score t)))
    rw [hs, List.pairwise_cons] at hpw
    obtain ⟨hhead, _⟩ := hpw
    have hc : create_duplicate_group tracks =
        some ((⟨t0.id, q0, true⟩ : NewMember) ::
          (List.enumFrom 1 srest).map (fun p => ⟨p.2.1.id, p.2.2, p.1 == 0⟩),
          t0.id) := by
      rw [create_duplicate_group.eq_def, hs]
      rfl
    refine ⟨_, _, _, _, hc, rfl, rfl, rfl, ?_, ?_⟩
    · rw [List.countP_cons, enumFrom_master_count srest 1 (by omega)]
      simp
    · intro m hm
      rcases List.mem_cons.mp hm with rfl | hm'
      · exact le_refl _
      · obtain ⟨z, hz, he⟩ := enumFrom_scores srest 1 m hm'
        rw [he]
        exact hhead z hz

/-- C8 witness: the theorem applied to a concrete two-track cluster. -/
theorem C8_single_master_witness :
    ∃ ms master m0 rest,
      create_duplicate_group [trackA, trackB] = some (ms, master) ∧
      ms = m0 :: rest ∧ m0.isMaster = true ∧ master = m0.trackId ∧
      ms.countP (fun m => m.isMaster) = 1 ∧
      ∀ m ∈ ms, m.qualityScore ≤ m0.qualityScore :=
  C8_single_master_highest_score [trackA, trackB] (by decide)

/-! ## Database state, merge engine, ignore and stats (claims C2–C5, C9) -/

/-- A `PlayHistory` row (claim-relevant fields). -/
structure PlayRec where
  id : Nat
  trackId : Nat
  deriving Repr, DecidableEq

/-- A `PlaylistTrack` row (claim-relevant fields). -/
structure PlaylistRec where
  id : Nat
  playlistId : Nat
  trackId : Nat
  deriving Repr, DecidableEq

/-- A `LikedSong` row; `liked_at` is modelled as an abstract timestamp. -/
structure LikedRec where
  trackId : Nat
  likedAt : Nat
  deriving Repr, DecidableEq

/-- A `DuplicateGroup` row (claim-relevant fields). -/
structure GroupRec where
  id : Nat
  status : String
  masterTrackId : Option Nat
  resolvedAt : Option Nat
  deriving Repr, DecidableEq

/-- A `DuplicateGroupMember` row (claim-relevant fields). -/
structure MemberRec where
  groupId : Nat
  trackId : Nat
  deriving Repr, DecidableEq

/-- The database state the deduplication service manipulates, plus the file
system (`files` is the set of existing paths; `os.remove` is modelled as
always succeeding on an existing path — the source logs and swallows
deletion errors without changing any other behaviour). -/
structure DB where
  tracks : List Track
  groups : List GroupRec
  members : List MemberRec
  playHistory : List PlayRec
  playlistTracks : List PlaylistRec
  likedSongs : List LikedRec
  files : List (List Nat)
  deriving Repr, DecidableEq

/-- `db.query(DuplicateGroup).filter(DuplicateGroup.id == group_id).first()`. -/
def findGroup (db : DB) (gid : Nat) : Option GroupRec :=
  db.groups.find? (fun g => g.id == gid)

/-- `db.query(Track).filter(Track.id == track_id).first()`. -/
def findTrack (db : DB) (tid : Nat) : Option Track :=
  db.tracks.find? (fun t => t.id == tid)

/-- `[m.track_id for m in group.members]`, in row order. -/
def memberTrackIds (db : DB) (gid : Nat) : List Nat :=
  (db.members.filter (fun m => m.groupId == gid)).map (fun m => m.trackId)

/-- The per-category transfer counters and result of `merge_duplicates`. -/
structure MergeResult where
  keptTrackId : Nat
  deletedTracks : Nat
  deletedFiles : List (List Nat)
  transferPlayHistory : Nat
  transferPlaylists : Nat
  transferLikes : Nat
  deriving Repr, DecidableEq

/-- Accumulator state of the discard loop of `merge_duplicates`. -/
structure MergeState where
  db : DB
  deletedFiles : List (List Nat)
  phCount : Nat
  plCount : Nat
  likeCount : Nat

/-- The playlist-association transfer for one discard entry: iterate the
snapshot of its `PlaylistTrack` rows; delete a row whose playlist already
contains the keep entry, otherwise re-key it to the keep entry and count
the transfer. -/
def playlistStepOne (keepId : Nat) (acc : DB × Nat) (ptid : Nat) : DB × Nat :=
  match acc.1.playlistTracks.find? (fun pt => pt.id == ptid) with
  | none => acc
  | some pt =>
    if acc.1.playlistTracks.any
        (fun q => q.playlistId == pt.playlistId && q.trackId == keepId) then
      let remaining := acc.1.playlistTracks.filter (fun q => q.id != ptid)
      ({ acc.1 with playlistTracks := remaining }, acc.2)
    else
      let rekeyed := acc.1.playlistTracks.map
        (fun q => if q.id == ptid then { q with trackId := keepId } else q)
      ({ acc.1 with playlistTracks := rekeyed }, acc.2 + 1)

/-- The playlist-association transfer for one discard entry (see the doc
comment above): fold `playlistStepOne` over the snapshot of the discard's
row ids. -/
def playlistStep (keepId deleteId : Nat) (db : DB) : DB × Nat :=
  ((db.playlistTracks.filter (fun pt => pt.trackId == deleteId)).map
    (fun pt => pt.id)).foldl (playlistStepOne keepId) (db, 0)

/-- Step (a) of the discard loop: re-key every play-history row of the
discard entry to the keep entry. -/
def rekeyPlayHistory (keepId deleteId : Nat) (db : DB) : DB :=
  let rekeyed := db.playHistory.map
    (fun ph => if ph.trackId == deleteId then { ph with trackId := keepId }
      else ph)
  { db with playHistory := rekeyed }

/-- Step (c) of the discard loop: transfer the liked record — delete the
discard's record first (the source flushes the delete before any insert),
then insert a fresh record for the keep entry, preserving the original
timestamp, only if the keep entry is not already liked.  Returns the
updated state and the `likes` transfer count. -/
def likeTransfer (keepId deleteId : Nat) (db : DB) : DB × Nat :=
  match db.likedSongs.find? (fun ls => ls.trackId == deleteId) with
  | none => (db, 0)
  | some liked =>
    let existingLiked :=
      (db.likedSongs.find? (fun ls => ls.trackId == keepId)).isSome
    let erased := db.likedSongs.eraseP (fun ls => ls.trackId == deleteId)
    if existingLiked then ({ db with likedSongs := erased }, 0)
    else ({ db with likedSongs := erased ++ [⟨keepId, liked.likedAt⟩] }, 1)

/-- Steps (d)–(e) of the discard loop, applied to the keep row: fill each of
year / genre / artwork / album / track number from the discard entry when
the keep entry's field is falsy and the discard's is truthy, and accumulate
`play_count` (`(keep or 0) + (discard or 0)`). -/
def keepMerge (keepId : Nat) (deleteTrack : Track) (t : Track) : Track :=
  if t.id == keepId then
    { t with
      year := if (truthyNat t.year).isNone ∧
          (truthyNat deleteTrack.year).isSome then deleteTrack.year
        else t.year
      genre := if (truthyStr t.genre).isNone ∧
          (truthyStr deleteTrack.genre).isSome then deleteTrack.genre
        else t.genre
      artworkPath := if (truthyStr t.artworkPath).isNone ∧
          (truthyStr deleteTrack.artworkPath).isSome then
          deleteTrack.artworkPath
        else t.artworkPath
      album := if (truthyStr t.album).isNone ∧
          (truthyStr deleteTrack.album).isSome then deleteTrack.album
        else t.album
      trackNumber := if (truthyNat t.trackNumber).isNone ∧
          (truthyNat deleteTrack.trackNumber).isSome then
          deleteTrack.trackNumber
        else t.trackNumber
      playCount := some (t.playCount.getD 0 + deleteTrack.playCount.getD 0) }
  else t

/-- Step (f) of the discard loop: best-effort backing-file deletion
(`delete_track.file_path` truthy and the path exists); returns the updated
state and the paths actually deleted. -/
def fileDelete (deleteFiles : Bool) (deleteTrack : Track) (db : DB) :
    DB × List (List Nat) :=
  if deleteFiles && !deleteTrack.filePath.isEmpty &&
      db.files.contains deleteTrack.filePath then
    ({ db with files := db.files.filter (fun p => p ≠ deleteTrack.filePath) },
      [deleteTrack.filePath])
  else (db, [])

/-- Step (g) of the discard loop: delete the discard's track row. -/
def deleteTrackRow (deleteId : Nat) (db : DB) : DB :=
  { db with tracks := db.tracks.eraseP (fun t => t.id == deleteId) }

/-- The body of `merge_duplicates`' discard loop for one discard entry:
re-key play history, transfer playlist rows, transfer the liked record,
fill the keep entry's empty metadata fields and accumulate the play count,
optionally delete the backing file, and delete the discard's track row.
A missing discard row is skipped (`continue`). -/
def mergeOneDiscard (keepId : Nat) (deleteFiles : Bool) (st : MergeState)
    (deleteId : Nat) : MergeState :=
  match findTrack st.db deleteId with
  | none => st
  | some deleteTrack =>
    let phN := (st.db.playHistory.filter (fun ph => ph.trackId == deleteId)).length
    let db1 := rekeyPlayHistory keepId deleteId st.db
    let pl := playlistStep keepId deleteId db1
    let like := likeTransfer keepId deleteId pl.1
    let db4 := { like.1 with
      tracks := like.1.tracks.map (keepMerge keepId deleteTrack) }
    let fileRes := fileDelete deleteFiles deleteTrack db4
    let db6 := deleteTrackRow deleteId fileRes.1
    { db := db6
      deletedFiles := st.deletedFiles ++ fileRes.2
      phCount := st.phCount + phN
      plCount := st.plCount + pl.2
      likeCount := st.likeCount + like.2 }

/-- `DeduplicationService.merge_duplicates(db, group_id, keep_track_id,
delete_files)`: the three `ValueError` preconditions, the discard loop, and
the final group resolution (`status="resolved"`, `resolved_at=now`,
`master_track_id=keep`). -/
def merge_duplicates (db : DB) (groupId keepTrackId : Nat)
    (deleteFiles : Bool) (now : Nat) : Except String (DB × MergeResult) :=
  match findGroup db groupId with
  | none => .error "Duplicate group not found"
  | some _ =>
    match findTrack db keepTrackId with
    | none => .error "Track to keep not found"
    | some _ =>
      if keepTrackId ∈ memberTrackIds db groupId then
        let deleteIds := (memberTrackIds db groupId).filter
          (fun tid => tid ≠ keepTrackId)
        let st := deleteIds.foldl (mergeOneDiscard keepTrackId deleteFiles)
          ⟨db, [], 0, 0, 0⟩
        let resolvedGroups := st.db.groups.map
          (fun g =>
            if g.id == groupId then
              { g with
                status := "resolved"
                resolvedAt := some now
                masterTrackId := some keepTrackId }
            else g)
        let db2 := { st.db with groups := resolvedGroups }
        .ok (db2, ⟨keepTrackId, deleteIds.length, st.deletedFiles, st.phCount,
          st.plCount, st.likeCount⟩)
      else .error "Track to keep is not in this duplicate group"

/-- `DeduplicationService.ignore_group(db, group_id)`: no status check —
sets `status="ignored"` and `resolved_at=now` on any existing group. -/
def ignore_group (db : DB) (groupId now : Nat) : Except String (DB × Nat) :=
  match findGroup db groupId with
  | none => .error "Duplicate group not found"
  | some _ =>
    let ignoredGroups := db.groups.map
      (fun g =>
        if g.id == groupId then
          { g with status := "ignored", resolvedAt := some now }
        else g)
    .ok ({ db with groups := ignoredGroups }, groupId)

/-- The file sizes of a group's members (`m.track.file_size or 0`; a
dangling member — impossible under foreign-key integrity — is modelled as
size 0). -/
def groupMemberSizes (db : DB) (gid : Nat) : List Nat :=
  (db.members.filter (fun m => m.groupId == gid)).map
    (fun m =>
      match findTrack db m.trackId with
      | some t => t.fileSize.getD 0
      | none => 0)

/-- `max(sizes)` for a nonempty list (0 on empty). -/
def maxNat (l : List Nat) : Nat := l.foldr max 0

/-- The record `DeduplicationService.get_stats` returns. -/
structure DedupStats where
  totalGroups : Nat
  unresolved : Nat
  resolved : Nat
  ignored : Nat
  potentialSpaceSavings : Nat
  deriving Repr, DecidableEq

/-- `DeduplicationService.get_stats`: group counts by status and the
accumulated potential space savings over unresolved groups
(`sum(sizes) - max(sizes)` whenever the member list is nonempty). -/
def get_stats (db : DB) : DedupStats :=
  { totalGroups := db.groups.length
    unresolved := (db.groups.filter (fun g => g.status == "unresolved")).length
    resolved := (db.groups.filter (fun g => g.status == "resolved")).length
    ignored := (db.groups.filter (fun g => g.status == "ignored")).length
    potentialSpaceSavings :=
      (db.groups.filter (fun g => g.status == "unresolved")).foldl
        (fun acc g =>
          if (groupMemberSizes db g.id).isEmpty then acc
          else acc + ((groupMemberSizes db g.id).sum -
            maxNat (groupMemberSizes db g.id)))
        0 }

/-- `Except.ok`-ness as a Bool (for closed counterexample statements). -/
def exceptOk {ε α : Type} : Except ε α → Bool
  | .ok _ => true
  | .error _ => false

theorem find?_map_stable {α : Type} (g : α → α) (p : α → Bool)
    (hp : ∀ x, p (g x) = p x) (l : List α) :
    (l.map g).find? p = (l.find? p).map g := by
  induction l with
  | nil => rfl
  | cons x xs ih =>
    simp only [List.map_cons, List.find?]
    rw [hp x]
    cases hpx : p x with
    | true => rfl
    | false => exact ih

/-- C4: `merge_duplicates` fails with the distinct human-readable
`ValueError` message — and, returning `Except.error`, produces no new
database state — in each of the three precondition violations (group
missing, keep track missing, keep track not a member), and in their absence
it succeeds. -/
theorem C4_merge_preconditions (db : DB) (gid keepId : Nat) (df : Bool)
    (now : Nat) :
    (findGroup db gid = none →
      merge_duplicates db gid keepId df now =
        .error "Duplicate group not found") ∧
    ((findGroup db gid).isSome = true → findTrack db keepId = none →
      merge_duplicates db gid keepId df now =
        .error "Track to keep not found") ∧
    ((findGroup db gid).isSome = true → (findTrack db keepId).isSome = true →
      keepId ∉ memberTrackIds db gid →
      merge_duplicates db gid keepId df now =
        .error "Track to keep is not in this duplicate group") ∧
    ((findGroup db gid).isSome = true → (findTrack db keepId).isSome = true →
      keepId ∈ memberTrackIds db gid →
      ∃ out, merge_duplicates db gid keepId df now = .ok out) := by
  refine ⟨?_, ?_, ?_, ?_⟩
  · intro h
    unfold merge_duplicates
    rw [h]
  · intro hg hk
    obtain ⟨g, hg'⟩ := Option.isSome_iff_exists.mp hg
    unfold merge_duplicates
    rw [hg', hk]
  · intro hg hk hmem
    obtain ⟨g, hg'⟩ := Option.isSome_iff_exists.mp hg
    obtain ⟨kt, hk'⟩ := Option.isSome_iff_exists.mp hk
    unfold merge_duplicates
    rw [hg', hk']
    simp only [if_neg hmem]
  · intro hg hk hmem
    obtain ⟨g, hg'⟩ := Option.isSome_iff_exists.mp hg
    obtain ⟨kt, hk'⟩ := Option.isSome_iff_exists.mp hk
    unfold merge_duplicates
    rw [hg', hk']
    simp only [if_pos hmem]
    exact ⟨_, rfl⟩

/-- A database with one unresolved two-member group, for witnesses. -/
def dbC4 : DB :=
  { tracks := [trackA, trackB]
    groups := [⟨1, "unresolved", none, none⟩]
    members := [⟨1, 1⟩, ⟨1, 2⟩]
    playHistory := []
    playlistTracks := []
    likedSongs := []
    files := [] }

/-- C4 witness: on a concrete database, a missing group fails with its
message and a valid merge succeeds. -/
theorem C4_merge_preconditions_witness :
    merge_duplicates dbC4 2 1 false 5 = .error "Duplicate group not found" ∧
      ∃ out, merge_duplicates dbC4 1 1 false 5 = .ok out :=
  ⟨(C4_merge_preconditions dbC4 2 1 false 5).1 (by decide),
    (C4_merge_preconditions dbC4 1 1 false 5).2.2.2 (by decide) (by decide)
      (by decide)⟩

/-- A database whose only group is already ignored. -/
def dbC2 : DB :=
  { tracks := [trackA, trackB]
    groups := [⟨1, "ignored", none, some 5⟩]
    members := [⟨1, 1⟩, ⟨1, 2⟩]
    playHistory := []
    playlistTracks := []
    likedSongs := []
    files := [] }

/-- C2 (failure of the claim as stated): a second `ignore` on an
already-ignored group does not fail — the service has no status check. -/
theorem C2_counterexample_second_ignore_succeeds :
    (findGroup dbC2 1).map (fun g => g.status) = some "ignored" ∧
      exceptOk (ignore_group dbC2 1 7) = true := by decide

/-- The per-row update `ignore_group` applies to the groups table. -/
def markIgnored (gid now : Nat) (h : GroupRec) : GroupRec :=
  if h.id == gid then { h with status := "ignored", resolvedAt := some now }
  else h

/-- C2 (amended): neither `merge_duplicates` nor `ignore_group` checks the
group's status: on a group whose status is not `unresolved`, `ignore`
succeeds again (re-setting `status="ignored"` and re-stamping
`resolved_at`), and `merge` succeeds whenever its three existence/membership
preconditions hold. -/
theorem C2_no_status_check (db : DB) (gid now : Nat) (g : GroupRec)
    (hg : findGroup db gid = some g) (hstatus : g.status ≠ "unresolved") :
    (∃ db2, ignore_group db gid now = .ok (db2, gid) ∧
      (findGroup db2 gid).map (fun h => h.status) = some "ignored") ∧
    (∀ keepId df, (findTrack db keepId).isSome = true →
      keepId ∈ memberTrackIds db gid →
      ∃ out, merge_duplicates db gid keepId df now = .ok out) := by
  constructor
  · have hok : ignore_group db gid now =
        .ok ({ db with groups := db.groups.map (markIgnored gid now) }, gid) := by
      unfold ignore_group
      rw [hg]
      rfl
    refine ⟨_, hok, ?_⟩
    have hg2 : db.groups.find? (fun h => h.id == gid) = some g := hg
    have hid := List.find?_some hg2
    show ((db.groups.map (markIgnored gid now)).find?
      (fun h => h.id == gid)).map (fun h => h.status) = some "ignored"
    rw [find?_map_stable (markIgnored gid now) (fun h => h.id == gid)
      (fun h => by rw [markIgnored]; split_ifs <;> rfl) db.groups]
    unfold findGroup at hg
    rw [hg]
    simp [markIgnored, hid]
  · intro keepId df hk hmem
    obtain ⟨kt, hk'⟩ := Option.isSome_iff_exists.mp hk
    unfold merge_duplicates
    rw [hg, hk']
    simp only [if_pos hmem]
    exact ⟨_, rfl⟩

/-- C2 witness: the amended behaviour on the concrete ignored-group
database. -/
theorem C2_no_status_check_witness :
    (∃ db2, ignore_group dbC2 1 7 = .ok (db2, 1) ∧
      (findGroup db2 1).map (fun h => h.status) = some "ignored") ∧
    (∀ keepId df, (findTrack dbC2 keepId).isSome = true →
      keepId ∈ memberTrackIds dbC2 1 →
      ∃ out, merge_duplicates dbC2 1 keepId df 7 = .ok out) :=
  C2_no_status_check dbC2 1 7 ⟨1, "ignored", none, some 5⟩ (by decide)
    (by decide)

/-- The specification's formula for `potential_space_savings_bytes`: the sum
over unresolved groups of (sum of member file sizes − max member file size),
null sizes counted as 0. -/
def specSavings (db : DB) : Nat :=
  ((db.groups.filter (fun g => g.status == "unresolved")).map
    (fun g => (groupMemberSizes db g.id).sum -
      maxNat (groupMemberSizes db g.id))).sum

theorem savings_foldl_eq (db : DB) (l : List GroupRec) (acc : Nat) :
    l.foldl
      (fun acc g =>
        if (groupMemberSizes db g.id).isEmpty then acc
        else acc + ((groupMemberSizes db g.id).sum -
          maxNat (groupMemberSizes db g.id)))
      acc =
    acc + (l.map (fun g => (groupMemberSizes db g.id).sum -
      maxNat (groupMemberSizes db g.id))).sum := by
  induction l generalizing acc with
  | nil => simp
  | cons g gs ih =>
    rw [List.foldl_cons, List.map_cons, List.sum_cons]
    by_cases hE : (groupMemberSizes db g.id).isEmpty
    · have hnil : groupMemberSizes db g.id = [] := by
        simpa [List.isEmpty_iff] using hE
      rw [if_pos hE, ih, hnil]
      simp [maxNat]
    · rw [if_neg hE, ih]
      omega

/-- Three sized library entries and one unresolved three-member group with
file sizes 10, 20 and 30. -/
def dbC9 : DB :=
  { tracks := [{ emptyTrack with id := 31, fileSize := some 10 },
      { emptyTrack with id := 32, fileSize := some 20 },
      { emptyTrack with id := 33, fileSize := some 30 }]
    groups := [⟨9, "unresolved", none, none⟩]
    members := [⟨9, 31⟩, ⟨9, 32⟩, ⟨9, 33⟩]
    playHistory := []
    playlistTracks := []
    likedSongs := []
    files := [] }

/-- C9: `get_stats` reports `potential_space_savings_bytes` equal to the
specification's Σ over unresolved groups of (sum of member sizes − max
member size), null sizes counted as 0; in particular the 3-member group
with sizes `{10, 20, 30}` contributes 30. -/
theorem C9_stats_savings :
    (∀ db : DB, (get_stats db).potentialSpaceSavings = specSavings db) ∧
      (get_stats dbC9).potentialSpaceSavings = 30 := by
  constructor
  · intro db
    rw [get_stats, specSavings]
    rw [savings_foldl_eq db _ 0]
    simp
  · decide

/-! ## Stage lemmas for the discard loop (claims C3, C5) -/

theorem find?_eraseP_ne {α : Type} (p q : α → Bool) (l : List α)
    (h : ∀ x, p x = true → q x = false) :
    (l.eraseP p).find? q = l.find? q := by
  induction l with
  | nil => rfl
  | cons x xs ih =>
    rw [List.eraseP_cons]
    cases hpx : p x with
    | true =>
      simp only [cond_true]
      have hqx := h x hpx
      simp only [List.find?, hqx]
    | false =>
      simp only [cond_false, List.find?]
      cases hqx : q x with
      | true => rfl
      | false => exact ih

theorem find?_eraseP_self (l : List Track) (d : Nat)
    (hnodup : (l.map Track.id).Nodup) :
    (l.eraseP (fun t => t.id == d)).find? (fun t => t.id == d) = none := by
  induction l with
  | nil => rfl
  | cons x xs ih =>
    rw [List.map_cons, List.nodup_cons] at hnodup
    obtain ⟨hx, hxs⟩ := hnodup
    rw [List.eraseP_cons]
    cases hpx : (x.id == d : Bool) with
    | true =>
      simp only [cond_true]
      rw [List.find?_eq_none]
      intro y hy hqy
      have hyd : y.id = d := by simpa using hqy
      have hxd : x.id = d := by simpa using hpx
      exact hx (List.mem_map.mpr ⟨y, hy, by rw [hyd, hxd]⟩)
    | false =>
      simp only [cond_false, List.find?, hpx]
      exact ih hxs

theorem keepMerge_id (k : Nat) (dt t : Track) : (keepMerge k dt t).id = t.id := by
  unfold keepMerge
  split <;> rfl

theorem rekeyPlayHistory_tracks (k d : Nat) (db : DB) :
    (rekeyPlayHistory k d db).tracks = db.tracks := rfl

theorem rekeyPlayHistory_liked (k d : Nat) (db : DB) :
    (rekeyPlayHistory k d db).likedSongs = db.likedSongs := rfl

theorem playlistStepOne_tracks (k : Nat) (acc : DB × Nat) (ptid : Nat) :
    (playlistStepOne k acc ptid).1.tracks = acc.1.tracks := by
  unfold playlistStepOne
  split
  · rfl
  · dsimp only
    split <;> rfl

theorem playlistStepOne_liked (k : Nat) (acc : DB × Nat) (ptid : Nat) :
    (playlistStepOne k acc ptid).1.likedSongs = acc.1.likedSongs := by
  unfold playlistStepOne
  split
  · rfl
  · dsimp only
    split <;> rfl

theorem playlistFoldl_tracks (k : Nat) (l : List Nat) (acc : DB × Nat) :
    ((l.foldl (playlistStepOne k) acc).1.tracks) = acc.1.tracks := by
  induction l generalizing acc with
  | nil => rfl
  | cons x xs ih => rw [List.foldl_cons, ih, playlistStepOne_tracks]

theorem playlistFoldl_liked (k : Nat) (l : List Nat) (acc : DB × Nat) :
    ((l.foldl (playlistStepOne k) acc).1.likedSongs) = acc.1.likedSongs := by
  induction l generalizing acc with
  | nil => rfl
  | cons x xs ih => rw [List.foldl_cons, ih, playlistStepOne_liked]

theorem playlistStep_tracks (k d : Nat) (db : DB) :
    (playlistStep k d db).1.tracks = db.tracks :=
  playlistFoldl_tracks k _ (db, 0)

theorem playlistStep_liked (k d : Nat) (db : DB) :
    (playlistStep k d db).1.likedSongs = db.likedSongs :=
  playlistFoldl_liked k _ (db, 0)

theorem likeTransfer_tracks (k d : Nat) (db : DB) :
    (likeTransfer k d db).1.tracks = db.tracks := by
  unfold likeTransfer
  split
  · rfl
  · dsimp only
    split <;> rfl

theorem fileDelete_tracks (df : Bool) (dt : Track) (db : DB) :
    (fileDelete df dt db).1.tracks = db.tracks := by
  unfold fileDelete
  split <;> rfl

theorem fileDelete_liked (df : Bool) (dt : Track) (db : DB) :
    (fileDelete df dt db).1.likedSongs = db.likedSongs := by
  unfold fileDelete
  split <;> rfl

theorem deleteTrackRow_liked (d : Nat) (db : DB) :
    (deleteTrackRow d db).likedSongs = db.likedSongs := rfl

theorem mergeOneDiscard_tracks (k : Nat) (df : Bool) (st : MergeState)
    (d : Nat) (dt : Track) (hdt : findTrack st.db d = some dt) :
    (mergeOneDiscard k df st d).db.tracks =
      (st.db.tracks.map (keepMerge k dt)).eraseP (fun t => t.id == d) := by
  simp only [mergeOneDiscard, hdt]
  rw [deleteTrackRow]
  dsimp only
  rw [fileDelete_tracks]
  dsimp only
  rw [likeTransfer_tracks, playlistStep_tracks, rekeyPlayHistory_tracks]

/-- The play count a database records for a track id (null as 0; 0 when the
track does not exist). -/
def playCountOf (db : DB) (tid : Nat) : Nat :=
  match findTrack db tid with
  | some t => t.playCount.getD 0
  | none => 0

theorem keepMerge_playCount (k : Nat) (dt kt : Track)
    (h : (kt.id == k) = true) :
    (keepMerge k dt kt).playCount =
      some (kt.playCount.getD 0 + dt.playCount.getD 0) := by
  unfold keepMerge
  rw [if_pos h]

theorem mergeOneDiscard_spec (k : Nat) (df : Bool) (st : MergeState)
    (d : Nat) (dt : Track) (hdt : findTrack st.db d = some dt) (hne : d ≠ k)
    (hnodup : (st.db.tracks.map Track.id).Nodup) :
    ((mergeOneDiscard k df st d).db.tracks.map Track.id).Nodup ∧
    (mergeOneDiscard k df st d).db.tracks.length + 1 = st.db.tracks.length ∧
    findTrack (mergeOneDiscard k df st d).db d = none ∧
    (∀ tid, tid ≠ d → tid ≠ k →
      findTrack (mergeOneDiscard k df st d).db tid = findTrack st.db tid) ∧
    (∀ kt, findTrack st.db k = some kt →
      findTrack (mergeOneDiscard k df st d).db k = some (keepMerge k dt kt)) := by
  have htr := mergeOneDiscard_tracks k df st d dt hdt
  have hdt2 : st.db.tracks.find? (fun t => t.id == d) = some dt := hdt
  have hidmap : (st.db.tracks.map (keepMerge k dt)).map Track.id =
      st.db.tracks.map Track.id := by
    rw [List.map_map]
    exact List.map_congr_left (fun t _ => keepMerge_id k dt t)
  have hnodup2 : ((st.db.tracks.map (keepMerge k dt)).map Track.id).Nodup := by
    rw [hidmap]
    exact hnodup
  refine ⟨?_, ?_, ?_, ?_, ?_⟩
  · rw [htr]
    exact hnodup2.sublist ((List.eraseP_sublist _).map Track.id)
  · rw [htr]
    have hdmem : dt ∈ st.db.tracks := List.mem_of_find?_eq_some hdt2
    have hdid : (dt.id == d) = true := by simpa using List.find?_some hdt2
    have hmem2 : keepMerge k dt dt ∈ st.db.tracks.map (keepMerge k dt) :=
      List.mem_map.mpr ⟨dt, hdmem, rfl⟩
    have hp2 : ((keepMerge k dt dt).id == d) = true := by
      rw [keepMerge_id]
      exact hdid
    rw [List.length_eraseP_add_one hmem2 hp2, List.length_map]
  · rw [findTrack, htr]
    exact find?_eraseP_self _ d hnodup2
  · intro tid htd htk
    show ((mergeOneDiscard k df st d).db.tracks.find? (fun t => t.id == tid)) =
      findTrack st.db tid
    rw [htr]
    rw [find?_eraseP_ne (fun t : Track => t.id == d) (fun t : Track => t.id == tid) _
      (fun x hxd => by
        have hx : x.id = d := by simpa using hxd
        simp [hx, Ne.symm htd])]
    rw [find?_map_stable (keepMerge k dt) (fun t : Track => t.id == tid)
      (fun t => by simp only [keepMerge_id]) st.db.tracks]
    cases hf : st.db.tracks.find? (fun t => t.id == tid) with
    | none => rw [Option.map_none', findTrack, hf]
    | some f =>
      have hfid : f.id = tid := by
        have := List.find?_some hf
        simpa using this
      have hfk : (f.id == k) = false := by simp [hfid, htk]
      have hkm : keepMerge k dt f = f := by
        unfold keepMerge
        rw [if_neg (by simp [hfk])]
      rw [Option.map_some', hkm, findTrack, hf]
  · intro kt hk
    show ((mergeOneDiscard k df st d).db.tracks.find? (fun t => t.id == k)) =
      some (keepMerge k dt kt)
    rw [htr]
    rw [find?_eraseP_ne (fun t : Track => t.id == d) (fun t : Track => t.id == k) _
      (fun x hxd => by
        have hx : x.id = d := by simpa using hxd
        simp [hx, hne])]
    rw [find?_map_stable (keepMerge k dt) (fun t : Track => t.id == k)
      (fun t => by simp only [keepMerge_id]) st.db.tracks]
    have hk2 : st.db.tracks.find? (fun t => t.id == k) = some kt := hk
    rw [hk2, Option.map_some']

theorem mergeFold_spec (k : Nat) (df : Bool) (ids : List Nat) :
    ∀ (st : MergeState) (kt : Track),
      ids.Nodup →
      (∀ d ∈ ids, d ≠ k) →
      (∀ d ∈ ids, (findTrack st.db d).isSome = true) →
      (st.db.tracks.map Track.id).Nodup →
      findTrack st.db k = some kt →
      (((ids.foldl (mergeOneDiscard k df) st).db.tracks.map Track.id).Nodup) ∧
      ((ids.foldl (mergeOneDiscard k df) st).db.tracks.length + ids.length =
        st.db.tracks.length) ∧
      (∀ tid, tid ≠ k → (∀ d ∈ ids, tid ≠ d) →
        findTrack (ids.foldl (mergeOneDiscard k df) st).db tid =
          findTrack st.db tid) ∧
      (∀ d ∈ ids, findTrack (ids.foldl (mergeOneDiscard k df) st).db d = none) ∧
      (∃ kt', findTrack (ids.foldl (mergeOneDiscard k df) st).db k = some kt' ∧
        kt'.playCount.getD 0 =
          kt.playCount.getD 0 + (ids.map (playCountOf st.db)).sum) := by
  induction ids with
  | nil =>
    intro st kt _ _ _ hnodup hk
    exact ⟨hnodup, by simp, fun tid _ _ => rfl, by simp, kt, hk, by simp⟩
  | cons d rest ih =>
    intro st kt hnd hnk hpres hnodup hk
    rw [List.nodup_cons] at hnd
    obtain ⟨hdrest, hndrest⟩ := hnd
    have hdk : d ≠ k := hnk d (List.mem_cons_self _ _)
    have hdpres := hpres d (List.mem_cons_self _ _)
    obtain ⟨dt, hdt⟩ := Option.isSome_iff_exists.mp hdpres
    obtain ⟨hnodup1, hlen1, hgone1, hpres1, hkeep1⟩ :=
      mergeOneDiscard_spec k df st d dt hdt hdk hnodup
    have hk1 : findTrack (mergeOneDiscard k df st d).db k =
        some (keepMerge k dt kt) := hkeep1 kt hk
    have hpres1' : ∀ d' ∈ rest,
        (findTrack (mergeOneDiscard k df st d).db d').isSome = true := by
      intro d' hd'
      rw [hpres1 d' (fun he => hdrest (he ▸ hd'))
        (hnk d' (List.mem_cons_of_mem _ hd'))]
      exact hpres d' (List.mem_cons_of_mem _ hd')
    obtain ⟨hN, hL, hP, hG, kt2, hkt2, hpc2⟩ :=
      ih (mergeOneDiscard k df st d) (keepMerge k dt kt) hndrest
        (fun d' hd' => hnk d' (List.mem_cons_of_mem _ hd')) hpres1' hnodup1 hk1
    rw [List.foldl_cons]
    refine ⟨hN, ?_, ?_, ?_, ?_⟩
    · rw [List.length_cons]
      omega
    · intro tid htk htid
      rw [hP tid htk (fun d' hd' => htid d' (List.mem_cons_of_mem _ hd')),
        hpres1 tid (htid d (List.mem_cons_self _ _)) htk]
    · intro d' hd'
      rcases List.mem_cons.mp hd' with rfl | hd''
      · rw [hP d' hdk (fun e he heq => hdrest (by rw [heq]; exact he))]
        exact hgone1
      · exact hG d' hd''
    · refine ⟨kt2, hkt2, ?_⟩
      rw [hpc2]
      have hkid : (kt.id == k) = true := by
        have h2 : st.db.tracks.find? (fun t => t.id == k) = some kt := hk
        simpa using List.find?_some h2
      have hktpc : (keepMerge k dt kt).playCount.getD 0 =
          kt.playCount.getD 0 + playCountOf st.db d := by
        rw [keepMerge_playCount k dt kt hkid]
        simp [playCountOf, hdt]
      have hmapeq : rest.map (playCountOf (mergeOneDiscard k df st d).db) =
          rest.map (playCountOf st.db) := by
        apply List.map_congr_left
        intro d' hd'
        rw [playCountOf, playCountOf,
          hpres1 d' (fun he => hdrest (he ▸ hd'))
            (hnk d' (List.mem_cons_of_mem _ hd'))]
      rw [hktpc, hmapeq, List.map_cons, List.sum_cons]
      have : playCountOf st.db d +
          (rest.map (playCountOf st.db)).sum =
          (playCountOf st.db d + (rest.map (playCountOf st.db)).sum) := rfl
      omega

theorem filter_ne_eq_erase (l : List Nat) (a : Nat) (h : l.Nodup) :
    l.filter (fun x => x ≠ a) = l.erase a := by
  rw [h.erase_eq_filter a]
  apply List.filter_congr
  intro x _
  by_cases hxa : x = a <;> simp [hxa]

/-- C3: merging a group whose member entries all exist (tracks and member
ids duplicate-free) succeeds; the report counts N−1 discarded entries, the
track table shrinks by exactly N−1 rows (every non-keep member is gone),
and the keep entry's play count equals the pre-merge sum of all N members'
play counts, null counted as 0. -/
theorem C3_merge_play_count_conservation (db : DB) (gid keepId now : Nat)
    (df : Bool)
    (hnodup : (db.tracks.map Track.id).Nodup)
    (hmnodup : (memberTrackIds db gid).Nodup)
    (hg : (findGroup db gid).isSome = true)
    (hpres : ∀ tid ∈ memberTrackIds db gid, (findTrack db tid).isSome = true)
    (hkeep : keepId ∈ memberTrackIds db gid) :
    ∃ db2 res, merge_duplicates db gid keepId df now = .ok (db2, res) ∧
      res.deletedTracks + 1 = (memberTrackIds db gid).length ∧
      db2.tracks.length + res.deletedTracks = db.tracks.length ∧
      (∀ d ∈ memberTrackIds db gid, d ≠ keepId → findTrack db2 d = none) ∧
      ∃ kt2, findTrack db2 keepId = some kt2 ∧
        kt2.playCount.getD 0 =
          ((memberTrackIds db gid).map (playCountOf db)).sum := by
  obtain ⟨g, hg'⟩ := Option.isSome_iff_exists.mp hg
  obtain ⟨kt, hk'⟩ := Option.isSome_iff_exists.mp (hpres keepId hkeep)
  have hdelsnodup : ((memberTrackIds db gid).filter
      (fun tid => tid ≠ keepId)).Nodup := hmnodup.filter _
  have hdelsne : ∀ d ∈ (memberTrackIds db gid).filter
      (fun tid => tid ≠ keepId), d ≠ keepId := by
    intro d hd
    simpa using (List.mem_filter.mp hd).2
  have hdelsmem : ∀ d ∈ (memberTrackIds db gid).filter
      (fun tid => tid ≠ keepId), d ∈ memberTrackIds db gid :=
    fun d hd => (List.mem_filter.mp hd).1
  have hperm : (memberTrackIds db gid).Perm
      (keepId :: (memberTrackIds db gid).filter (fun tid => tid ≠ keepId)) := by
    rw [filter_ne_eq_erase _ keepId hmnodup]
    exact List.perm_cons_erase hkeep
  obtain ⟨hN, hL, hP, hG, kt2, hkt2, hpc2⟩ :=
    mergeFold_spec keepId df
      ((memberTrackIds db gid).filter (fun tid => tid ≠ keepId))
      ⟨db, [], 0, 0, 0⟩ kt hdelsnodup hdelsne
      (fun d hd => hpres d (hdelsmem d hd)) hnodup hk'
  unfold merge_duplicates
  rw [hg', hk', if_pos hkeep]
  refine ⟨_, _, rfl, ?_, ?_, ?_, ?_⟩
  · show ((memberTrackIds db gid).filter (fun tid => tid ≠ keepId)).length + 1 =
      (memberTrackIds db gid).length
    have := hperm.length_eq
    rw [List.length_cons] at this
    omega
  · show ((((memberTrackIds db gid).filter (fun tid => tid ≠ keepId)).foldl
      (mergeOneDiscard keepId df) ⟨db, [], 0, 0, 0⟩).db.tracks.length) +
      ((memberTrackIds db gid).filter (fun tid => tid ≠ keepId)).length =
      db.tracks.length
    exact hL
  · intro d hd hne
    have hd2 : d ∈ (memberTrackIds db gid).filter (fun tid => tid ≠ keepId) :=
      List.mem_filter.mpr ⟨hd, by simpa using hne⟩
    exact hG d hd2
  · refine ⟨kt2, hkt2, ?_⟩
    rw [hpc2]
    dsimp only
    have hsum := (hperm.map (playCountOf db)).sum_eq
    rw [List.map_cons, List.sum_cons] at hsum
    have hkpc : playCountOf db keepId = kt.playCount.getD 0 := by
      simp [playCountOf, hk']
    omega

/-- Three entries with play counts 2, 3 and null in one unresolved group. -/
def dbC3 : DB :=
  { tracks := [{ emptyTrack with id := 1, playCount := some 2 },
      { emptyTrack with id := 2, playCount := some 3 },
      { emptyTrack with id := 3, playCount := none }]
    groups := [⟨1, "unresolved", none, none⟩]
    members := [⟨1, 1⟩, ⟨1, 2⟩, ⟨1, 3⟩]
    playHistory := []
    playlistTracks := []
    likedSongs := []
    files := [] }

/-- C3 witness: merging the concrete three-member group into entry 1. -/
theorem C3_merge_play_count_witness :
    ∃ db2 res, merge_duplicates dbC3 1 1 false 9 = .ok (db2, res) ∧
      res.deletedTracks + 1 = (memberTrackIds dbC3 1).length ∧
      db2.tracks.length + res.deletedTracks = dbC3.tracks.length ∧
      (∀ d ∈ memberTrackIds dbC3 1, d ≠ 1 → findTrack db2 d = none) ∧
      ∃ kt2, findTrack db2 1 = some kt2 ∧
        kt2.playCount.getD 0 =
          ((memberTrackIds dbC3 1).map (playCountOf dbC3)).sum :=
  C3_merge_play_count_conservation dbC3 1 1 9 false (by decide) (by decide)
    (by decide) (by decide) (by decide)

theorem filter_eraseP_of_ne {α : Type} (p q : α → Bool) (l : List α)
    (h : ∀ x, p x = true → q x = false) :
    (l.eraseP p).filter q = l.filter q := by
  induction l with
  | nil => rfl
  | cons x xs ih =>
    rw [List.eraseP_cons]
    cases hpx : p x with
    | true =>
      have hqx := h x hpx
      simp [List.filter_cons, hqx]
    | false =>
      cases hqx : q x with
      | true => simp [List.filter_cons, hqx, ih]
      | false => simp [List.filter_cons, hqx, ih]

theorem filter_eraseP_self {α : Type} (p : α → Bool) (l : List α) :
    (l.eraseP p).filter p = (l.filter p).tail := by
  induction l with
  | nil => rfl
  | cons x xs ih =>
    rw [List.eraseP_cons]
    cases hpx : p x with
    | true => simp [List.filter_cons, hpx]
    | false => simp [List.filter_cons, hpx, ih]

theorem mergeOneDiscard_liked (k : Nat) (df : Bool) (st : MergeState)
    (d : Nat) (dt : Track) (hdt : findTrack st.db d = some dt) :
    (mergeOneDiscard k df st d).db.likedSongs =
      (likeTransfer k d
        (playlistStep k d (rekeyPlayHistory k d st.db)).1).1.likedSongs := by
  simp only [mergeOneDiscard, hdt]
  rw [deleteTrackRow]
  dsimp only
  rw [fileDelete_liked]

theorem likeTransfer_both (k d : Nat) (db : DB)
    (hd : (db.likedSongs.find? (fun ls => ls.trackId == d)).isSome = true)
    (hk : (db.likedSongs.find? (fun ls => ls.trackId == k)).isSome = true) :
    (likeTransfer k d db).1.likedSongs =
      db.likedSongs.eraseP (fun ls => ls.trackId == d) := by
  obtain ⟨ld, hld⟩ := Option.isSome_iff_exists.mp hd
  unfold likeTransfer
  rw [hld]
  dsimp only
  rw [hk]
  simp

theorem find?_isSome_of_filter_length {α : Type} (p : α → Bool) (l : List α)
    (h : (l.filter p).length = 1) : (l.find? p).isSome = true := by
  cases hf : l.find? p with
  | some x => rfl
  | none =>
    have hemp : l.filter p = [] := by
      rw [List.filter_eq_nil_iff]
      intro x hx
      exact (List.find?_eq_none.mp hf) x hx
    rw [hemp] at h
    simp at h

/-- C5: for a two-member group whose entries are both favorited pre-merge,
the merge leaves exactly one favorite record referencing the kept entry and
none referencing the discarded entry — the keep entry's record is preserved
and no duplicate is ever inserted. -/
theorem C5_merge_favorites (db : DB) (gid keepId discardId now : Nat)
    (df : Bool) (hne : discardId ≠ keepId)
    (hg : (findGroup db gid).isSome = true)
    (hmem : memberTrackIds db gid = [keepId, discardId] ∨
      memberTrackIds db gid = [discardId, keepId])
    (hkf : (findTrack db keepId).isSome = true)
    (hdf : (findTrack db discardId).isSome = true)
    (hlk : (db.likedSongs.filter (fun ls => ls.trackId == keepId)).length = 1)
    (hld : (db.likedSongs.filter
      (fun ls => ls.trackId == discardId)).length = 1) :
    ∃ db2 res, merge_duplicates db gid keepId df now = .ok (db2, res) ∧
      (db2.likedSongs.filter (fun ls => ls.trackId == keepId)).length = 1 ∧
      (db2.likedSongs.filter (fun ls => ls.trackId == discardId)).length = 0 := by
  obtain ⟨g, hg'⟩ := Option.isSome_iff_exists.mp hg
  obtain ⟨kt, hk'⟩ := Option.isSome_iff_exists.mp hkf
  obtain ⟨dt, hdt'⟩ := Option.isSome_iff_exists.mp hdf
  have hkeep : keepId ∈ memberTrackIds db gid := by
    rcases hmem with hm | hm <;> rw [hm] <;> simp
  have hfilter : (memberTrackIds db gid).filter (fun tid => tid ≠ keepId) =
      [discardId] := by
    rcases hmem with hm | hm <;> rw [hm] <;> simp [hne]
  have hdb' : (playlistStep keepId discardId
      (rekeyPlayHistory keepId discardId db)).1.likedSongs = db.likedSongs := by
    rw [playlistStep_liked, rekeyPlayHistory_liked]
  have hd1 : ((playlistStep keepId discardId
      (rekeyPlayHistory keepId discardId db)).1.likedSongs.find?
        (fun ls => ls.trackId == discardId)).isSome = true := by
    rw [hdb']
    exact find?_isSome_of_filter_length _ _ hld
  have hk1 : ((playlistStep keepId discardId
      (rekeyPlayHistory keepId discardId db)).1.likedSongs.find?
        (fun ls => ls.trackId == keepId)).isSome = true := by
    rw [hdb']
    exact find?_isSome_of_filter_length _ _ hlk
  have hliked : (mergeOneDiscard keepId df
      (⟨db, [], 0, 0, 0⟩ : MergeState) discardId).db.likedSongs =
      db.likedSongs.eraseP (fun ls => ls.trackId == discardId) := by
    rw [mergeOneDiscard_liked keepId df ⟨db, [], 0, 0, 0⟩ discardId dt hdt']
    rw [likeTransfer_both keepId discardId _ hd1 hk1, hdb']
  unfold merge_duplicates
  rw [hg', hk', if_pos hkeep, hfilter]
  refine ⟨_, _, rfl, ?_, ?_⟩
  · show ((([discardId].foldl (mergeOneDiscard keepId df)
      ⟨db, [], 0, 0, 0⟩).db.likedSongs).filter
        (fun ls => ls.trackId == keepId)).length = 1
    rw [List.foldl_cons, List.foldl_nil, hliked]
    rw [filter_eraseP_of_ne _ _ _ (fun x hx => by
      have hxd : x.trackId = discardId := by simpa using hx
      simp [hxd, hne])]
    exact hlk
  · show ((([discardId].foldl (mergeOneDiscard keepId df)
      ⟨db, [], 0, 0, 0⟩).db.likedSongs).filter
        (fun ls => ls.trackId == discardId)).length = 0
    rw [List.foldl_cons, List.foldl_nil, hliked]
    rw [filter_eraseP_self, List.length_tail, hld]

/-- A two-member group with both entries favorited. -/
def dbC5 : DB :=
  { tracks := [{ emptyTrack with id := 1 }, { emptyTrack with id := 2 }]
    groups := [⟨1, "unresolved", none, none⟩]
    members := [⟨1, 1⟩, ⟨1, 2⟩]
    playHistory := []
    playlistTracks := []
    likedSongs := [⟨1, 100⟩, ⟨2, 200⟩]
    files := [] }

/-- C5 witness: merging the concrete both-favorited pair into entry 1. -/
theorem C5_merge_favorites_witness :
    ∃ db2 res, merge_duplicates dbC5 1 1 false 11 = .ok (db2, res) ∧
      (db2.likedSongs.filter (fun ls => ls.trackId == 1)).length = 1 ∧
      (db2.likedSongs.filter (fun ls => ls.trackId == 2)).length = 0 :=
  C5_merge_favorites dbC5 1 1 2 11 false (by decide) (by decide)
    (Or.inl (by decide)) (by decide) (by decide) (by decide) (by decide)
